import Mathlib

/-!
# Verification of the hours-tracker period rollup and overtime engine

This file gives a shallow embedding, in Lean 4, of the date/period utilities
(`src/unnamed/part_002`, i.e. `date.js`) and of the rollup / overtime /
comparison / aggregation functions (`src/utils/reports.js`, second copy, the
overtime-aware one) of the hours-tracker repository, together with theorems
settling the frozen claims about them.

## Modelling conventions

* A JavaScript `Date` is modelled at day granularity by its **day number**
  `dn : ℕ` — the number of days since 0001-01-01 (proleptic Gregorian), which
  was a Monday.  The code normalises all dates to local midnight before use,
  uses them only at day granularity, and we assume a fixed (UTC-like)
  environment with no DST shifts, so a day number is a faithful model.
  The model's valid range is years 1–9999 (`dn ≤ maxDn`), the range on which
  the code's `YYYY-MM-DD` string identifiers are meaningful.
* `d.getDay()` is `(dn + 1) % 7` (JS weekday, Sunday = 0; day 0 is a Monday).
* `d.setDate(n)` shifts the timestamp by `(n - d.getDate())` days, so the
  arithmetic in `getMonday` is embedded directly as day-number arithmetic.
* JS numbers are modelled by `ℚ`, with `NaN` represented as `none` in
  `Option ℚ` where the code can produce it.  `x.toFixed(2)` followed by
  `parseFloat` is modelled as exact decimal rounding `round2` (round half up).
* Duck-typed record fields (`entry.hours`, `entry.hourlyRate`) are modelled by
  the `JVal` type (number / NaN / string / undefined), with JS truthiness and
  the `parseFloat` / `ToNumber` coercions made explicit.
-/

namespace HoursTracker

/-! ## Civil (proleptic Gregorian) calendar model

The JS `Date` object implements the proleptic Gregorian calendar; the
functions below are the reference model of that calendar used to interpret
`getFullYear` / `getMonth` / `getDate` at day granularity. -/

/-- Gregorian leap-year rule (as JS `Date` implements it). -/
def isLeap (y : ℕ) : Bool := (y % 4 == 0 && y % 100 != 0) || (y % 400 == 0)

/-- Number of days in month `m` (1–12) of year `y`. -/
def daysInMonth (y m : ℕ) : ℕ :=
  if m = 2 then (if isLeap y then 29 else 28)
  else if m = 4 ∨ m = 6 ∨ m = 9 ∨ m = 11 then 30
  else 31

/-- Number of days in year `y`. -/
def daysInYear (y : ℕ) : ℕ := if isLeap y then 366 else 365

/-- Number of leap years in `[1, y-1]`. -/
def leapsBefore (y : ℕ) : ℕ := (y-1)/4 - (y-1)/100 + (y-1)/400

/-- Day number of January 1 of year `y` (day 0 = 0001-01-01). -/
def yearStartDn (y : ℕ) : ℕ := 365*(y-1) + leapsBefore y

/-- Days of year `y` that precede month `m` (so `monthStartOffset y 1 = 0`). -/
def monthStartOffset (y : ℕ) : ℕ → ℕ
  | 0 => 0
  | 1 => 0
  | m+1 => monthStartOffset y m + daysInMonth y m

/-- Day number of the civil date `y-m-d` (1-based month and day). -/
def daysFromCivil (y m d : ℕ) : ℕ := yearStartDn y + monthStartOffset y m + (d-1)

/-- Last valid day number of the model (9999-12-31). -/
def maxDn : ℕ := 3652058

/-- Find the year containing a day: walk years from `y`, consuming `r`
    remaining days; `fuel` bounds the walk. Returns (year, day-of-year). -/
def findYear : ℕ → ℕ → ℕ → ℕ × ℕ
  | 0, y, r => (y, r)
  | fuel+1, y, r => if r < daysInYear y then (y, r) else findYear fuel (y+1) (r - daysInYear y)

/-- Find the month containing day-of-year `r` (0-based) of year `y`, walking
    months from `m`. Returns (month, day-of-month). -/
def findMonth : ℕ → ℕ → ℕ → ℕ → ℕ × ℕ
  | 0, _, m, r => (m, r+1)
  | fuel+1, y, m, r => if r < daysInMonth y m then (m, r+1) else findMonth fuel y (m+1) (r - daysInMonth y m)

/-- Civil date `(year, month, day)` of a day number (model of reading
    `getFullYear()/getMonth()+1/getDate()` of a JS `Date`). -/
def civilFromDays (dn : ℕ) : ℕ × ℕ × ℕ :=
  let yr := findYear 10000 1 dn
  let md := findMonth 11 yr.1 1 yr.2
  (yr.1, md.1, md.2)

/-- A valid civil triple in the model's range. -/
def validCivil (y m d : ℕ) : Prop :=
  1 ≤ y ∧ y ≤ 9999 ∧ 1 ≤ m ∧ m ≤ 12 ∧ 1 ≤ d ∧ d ≤ daysInMonth y m

instance (y m d : ℕ) : Decidable (validCivil y m d) := by
  unfold validCivil; infer_instance

/-! ### Calendar correctness lemmas -/

theorem isLeap_iff (y : ℕ) : isLeap y = true ↔ ((y % 4 = 0 ∧ ¬ y % 100 = 0) ∨ y % 400 = 0) := by
  unfold isLeap
  simp [Bool.or_eq_true, Bool.and_eq_true]

theorem yearStart_succ (y : ℕ) (hy : 1 ≤ y) :
    yearStartDn (y+1) = yearStartDn y + daysInYear y := by
  have hL := isLeap_iff y
  unfold yearStartDn leapsBefore daysInYear
  by_cases h : isLeap y = true <;> simp [h] at hL ⊢ <;> omega

theorem yearStart_mono {y₁ y₂ : ℕ} (h1 : 1 ≤ y₁) (h : y₁ ≤ y₂) :
    yearStartDn y₁ ≤ yearStartDn y₂ := by
  induction y₂ with
  | zero => omega
  | succ n ih =>
    rcases Nat.lt_or_ge y₁ (n+1) with hlt | hge
    · have hs := yearStart_succ n (by omega)
      have hi := ih (by omega)
      omega
    · have he : y₁ = n+1 := by omega
      subst he
      omega

theorem findYear_spec (fuel : ℕ) : ∀ y r, 1 ≤ y →
    yearStartDn y + r < yearStartDn (y + fuel + 1) →
    yearStartDn (findYear fuel y r).1 + (findYear fuel y r).2 = yearStartDn y + r ∧
    (findYear fuel y r).2 < daysInYear (findYear fuel y r).1 ∧
    y ≤ (findYear fuel y r).1 := by
  induction fuel with
  | zero =>
    intro y r hy hbound
    have hs := yearStart_succ y hy
    simp only [Nat.add_zero] at hbound
    show yearStartDn y + r = yearStartDn y + r ∧ r < daysInYear y ∧ y ≤ y
    exact ⟨rfl, by omega, Nat.le_refl y⟩
  | succ n ih =>
    intro y r hy hbound
    simp only [findYear]
    by_cases hcase : r < daysInYear y
    · simp [hcase]
    · simp only [if_neg hcase]
      have hys := yearStart_succ y hy
      have hb2 : yearStartDn (y+1) + (r - daysInYear y) < yearStartDn ((y+1) + n + 1) := by
        have harr : y + 1 + n + 1 = y + (n+1) + 1 := by omega
        rw [harr]; omega
      have hr := ih (y+1) (r - daysInYear y) (by omega) hb2
      omega

theorem monthStartOffset_succ (y m : ℕ) (hm : 1 ≤ m) :
    monthStartOffset y (m+1) = monthStartOffset y m + daysInMonth y m := by
  match m, hm with
  | m+1, _ => rfl

theorem monthStartOffset_year (y : ℕ) : monthStartOffset y 13 = daysInYear y := by
  cases h : isLeap y <;>
  · simp only [monthStartOffset, daysInMonth, daysInYear, h]
    norm_num

theorem daysInMonth_pos (y m : ℕ) : 1 ≤ daysInMonth y m := by
  unfold daysInMonth
  split_ifs <;> omega

theorem monthStartOffset_mono (y : ℕ) {m₁ m₂ : ℕ} (h1 : 1 ≤ m₁) (h : m₁ ≤ m₂) :
    monthStartOffset y m₁ ≤ monthStartOffset y m₂ := by
  induction m₂ with
  | zero => omega
  | succ n ih =>
    rcases Nat.lt_or_ge m₁ (n+1) with hlt | hge
    · have hs := monthStartOffset_succ y n (by omega)
      have hi := ih (by omega)
      omega
    · have he : m₁ = n+1 := by omega
      subst he
      omega

theorem findMonth_spec (fuel : ℕ) : ∀ y m r, 1 ≤ m →
    monthStartOffset y m + r < monthStartOffset y (m + fuel + 1) →
    monthStartOffset y (findMonth fuel y m r).1 + ((findMonth fuel y m r).2 - 1)
        = monthStartOffset y m + r ∧
    1 ≤ (findMonth fuel y m r).2 ∧
    (findMonth fuel y m r).2 ≤ daysInMonth y (findMonth fuel y m r).1 ∧
    m ≤ (findMonth fuel y m r).1 := by
  induction fuel with
  | zero =>
    intro y m r hm hbound
    have hs := monthStartOffset_succ y m hm
    simp only [Nat.add_zero] at hbound
    show monthStartOffset y m + (r + 1 - 1) = monthStartOffset y m + r ∧
        1 ≤ r + 1 ∧ r + 1 ≤ daysInMonth y m ∧ m ≤ m
    omega
  | succ n ih =>
    intro y m r hm hbound
    simp only [findMonth]
    by_cases hcase : r < daysInMonth y m
    · simp only [if_pos hcase]; omega
    · simp only [if_neg hcase]
      have hms := monthStartOffset_succ y m hm
      have hb2 : monthStartOffset y (m+1) + (r - daysInMonth y m)
          < monthStartOffset y ((m+1) + n + 1) := by
        have harr : m + 1 + n + 1 = m + (n+1) + 1 := by omega
        rw [harr]; omega
      have hr := ih y (m+1) (r - daysInMonth y m) (by omega) hb2
      omega

theorem yearStart_10002 : yearStartDn 10002 = 3652790 := by
  unfold yearStartDn leapsBefore; norm_num

theorem yearStart_10000 : yearStartDn 10000 = 3652059 := by
  unfold yearStartDn leapsBefore; norm_num

/-- Days-to-civil correctness: on the valid range, `civilFromDays` produces a
    valid civil triple that `daysFromCivil` maps back to the input. -/
theorem civilFromDays_spec (dn : ℕ) (h : dn ≤ maxDn) :
    validCivil (civilFromDays dn).1 (civilFromDays dn).2.1 (civilFromDays dn).2.2 ∧
    daysFromCivil (civilFromDays dn).1 (civilFromDays dn).2.1 (civilFromDays dn).2.2 = dn := by
  have hys1 : yearStartDn 1 = 0 := by unfold yearStartDn leapsBefore; norm_num
  have hbound : yearStartDn 1 + dn < yearStartDn (1 + 10000 + 1) := by
    have h2 : yearStartDn (1 + 10000 + 1) = 3652790 := yearStart_10002
    unfold maxDn at h
    omega
  have hspec := findYear_spec 10000 1 dn (by omega) hbound
  rcases hfy : findYear 10000 1 dn with ⟨y, doy⟩
  rw [hfy] at hspec
  dsimp only at hspec
  obtain ⟨heq, hlt, hge⟩ := hspec
  rw [hys1] at heq
  have hy9999 : y ≤ 9999 := by
    by_contra hc
    have h1e4 : 10000 ≤ y := by omega
    have hmo := @yearStart_mono 10000 y (by omega) h1e4
    rw [yearStart_10000] at hmo
    unfold maxDn at h
    omega
  have hmso1 : monthStartOffset y 1 = 0 := rfl
  have h13y := monthStartOffset_year y
  have hmb : monthStartOffset y 1 + doy < monthStartOffset y (1 + 11 + 1) := by
    have h13 : monthStartOffset y (1 + 11 + 1) = daysInYear y := h13y
    omega
  have hmspec := findMonth_spec 11 y 1 doy (by omega) hmb
  rcases hfm : findMonth 11 y 1 doy with ⟨m, d⟩
  rw [hfm] at hmspec
  dsimp only at hmspec
  obtain ⟨hmeq, hd1, hd2, hm1⟩ := hmspec
  rw [hmso1] at hmeq
  have hm12 : m ≤ 12 := by
    by_contra hc
    have hmono := @monthStartOffset_mono y 13 m (by omega) (by omega)
    rw [h13y] at hmono
    omega
  have hcd : civilFromDays dn = (y, m, d) := by
    unfold civilFromDays
    rw [hfy]
    dsimp only
    rw [hfm]
  rw [hcd]
  show validCivil y m d ∧ daysFromCivil y m d = dn
  unfold validCivil daysFromCivil
  omega

theorem dfc_year_bounds {y m d : ℕ} (h : validCivil y m d) :
    yearStartDn y ≤ daysFromCivil y m d ∧ daysFromCivil y m d < yearStartDn (y+1) := by
  obtain ⟨hy1, hy2, hm1, hm2, hd1, hd2⟩ := h
  have hys := yearStart_succ y hy1
  have hmso := monthStartOffset_succ y m hm1
  have hmono := @monthStartOffset_mono y (m+1) 13 (by omega) (by omega)
  have h13 := monthStartOffset_year y
  unfold daysFromCivil
  omega

theorem dfc_month_bounds {y m d : ℕ} (h : validCivil y m d) :
    monthStartOffset y m ≤ monthStartOffset y m + (d-1) ∧
    monthStartOffset y m + (d-1) < monthStartOffset y (m+1) := by
  obtain ⟨hy1, hy2, hm1, hm2, hd1, hd2⟩ := h
  have hmso := monthStartOffset_succ y m hm1
  omega

theorem dfc_le_maxDn {y m d : ℕ} (h : validCivil y m d) :
    daysFromCivil y m d ≤ maxDn := by
  have hb := dfc_year_bounds h
  have hy2 : y ≤ 9999 := h.2.1
  have hmo := @yearStart_mono (y + 1) 10000 (by omega) (by omega)
  rw [yearStart_10000] at hmo
  unfold maxDn
  omega

/-- `daysFromCivil` is injective on valid civil triples. -/
theorem dfc_inj {y m d y' m' d' : ℕ} (h : validCivil y m d) (h' : validCivil y' m' d')
    (heq : daysFromCivil y m d = daysFromCivil y' m' d') : y = y' ∧ m = m' ∧ d = d' := by
  have hb := dfc_year_bounds h
  have hb' := dfc_year_bounds h'
  have hy : y = y' := by
    rcases Nat.lt_trichotomy y y' with hlt | he | hgt
    · have := @yearStart_mono (y + 1) y' (by omega) (by omega)
      omega
    · exact he
    · have := @yearStart_mono (y' + 1) y (by omega) (by omega)
      omega
  subst hy
  have hmb := dfc_month_bounds h
  have hmb' := dfc_month_bounds h'
  have hm : m = m' := by
    rcases Nat.lt_trichotomy m m' with hlt | he | hgt
    · have := @monthStartOffset_mono y (m + 1) m' (by omega) (by omega)
      unfold daysFromCivil at heq
      omega
    · exact he
    · have := @monthStartOffset_mono y (m' + 1) m (by omega) (by omega)
      unfold daysFromCivil at heq
      omega
  subst hm
  unfold daysFromCivil at heq
  obtain ⟨_, _, _, _, hd1, _⟩ := h
  obtain ⟨_, _, _, _, hd1', _⟩ := h'
  exact ⟨rfl, rfl, by omega⟩

/-- Civil-to-days roundtrip: `civilFromDays` inverts `daysFromCivil` on valid
    triples. -/
theorem civilFromDays_dfc {y m d : ℕ} (h : validCivil y m d) :
    civilFromDays (daysFromCivil y m d) = (y, m, d) := by
  have hle := dfc_le_maxDn h
  obtain ⟨hv, hrt⟩ := civilFromDays_spec (daysFromCivil y m d) hle
  obtain ⟨h1, h2, h3⟩ := dfc_inj hv h hrt
  ext <;> simp [h1, h2, h3]

/-! ## String identifiers

The code stores period identifiers as strings (`formatDate` builds
`YYYY-MM-DD`, `getMonthId` builds `YYYY-MM`, `getYearId` builds `YYYY`).  JS
`String(n)` renders a natural number in decimal; we model it for the numbers
that occur (years ≤ 9999, months, days) by an explicit decimal rendering. -/

/-- The character of a decimal digit. -/
def digitChar (n : ℕ) : Char := Char.ofNat (48 + n)

/-- Decimal digits of `n` (most significant first), for `n ≤ 9999`. -/
def digitsOf (n : ℕ) : List ℕ :=
  if n < 10 then [n]
  else if n < 100 then [n/10, n%10]
  else if n < 1000 then [n/100, n/10%10, n%10]
  else [n/1000, n/100%10, n/10%10, n%10]

/-- Model of JS `String(n)` for the naturals occurring in date ids. -/
def natToDecimalString (n : ℕ) : String := String.mk ((digitsOf n).map digitChar)

/-- Digits used by `String(n).padStart(2, '0')`. -/
def pad2digits (n : ℕ) : List ℕ := if n < 10 then [0, n] else digitsOf n

/-- Model of JS `String(n).padStart(2, '0')` (months and days). -/
def pad2 (n : ℕ) : String := String.mk ((pad2digits n).map digitChar)

/-- `formatDate(date)`: the `YYYY-MM-DD` identifier string
    (source: `src/unnamed/part_002`, `formatDate`). -/
def formatDate (dn : ℕ) : String :=
  let c := civilFromDays dn
  natToDecimalString c.1 ++ "-" ++ pad2 c.2.1 ++ "-" ++ pad2 c.2.2

/-- `getMonthId(date)`: the `YYYY-MM` identifier. -/
def getMonthId (dn : ℕ) : String :=
  let c := civilFromDays dn
  natToDecimalString c.1 ++ "-" ++ pad2 c.2.1

/-- `getYearId(date)`: the `YYYY` identifier. -/
def getYearId (dn : ℕ) : String := natToDecimalString (civilFromDays dn).1

theorem digitChar_inj : ∀ a < 10, ∀ b < 10, digitChar a = digitChar b → a = b := by decide

theorem digitsOf_lt (n : ℕ) (hn : n ≤ 9999) : ∀ x ∈ digitsOf n, x < 10 := by
  intro x hx
  unfold digitsOf at hx
  split_ifs at hx <;> simp at hx <;> omega

theorem pad2digits_lt (n : ℕ) (hn : n ≤ 9999) : ∀ x ∈ pad2digits n, x < 10 := by
  intro x hx
  unfold pad2digits at hx
  rcases Nat.lt_or_ge n 10 with h | h
  · rw [if_pos h] at hx; simp at hx; omega
  · rw [if_neg (by omega)] at hx; exact digitsOf_lt n hn x hx

theorem map_digitChar_inj : ∀ (l₁ l₂ : List ℕ), (∀ x ∈ l₁, x < 10) → (∀ x ∈ l₂, x < 10) →
    l₁.map digitChar = l₂.map digitChar → l₁ = l₂ := by
  intro l₁
  induction l₁ with
  | nil =>
    intro l₂ _ _ h
    cases l₂ <;> simp_all
  | cons x xs ih =>
    intro l₂ h1 h2 h
    cases l₂ with
    | nil => simp_all
    | cons y ys =>
      simp only [List.map_cons, List.cons.injEq] at h
      have hx := digitChar_inj x (h1 x (by simp)) y (h2 y (by simp)) h.1
      have hxs := ih ys (fun z hz => h1 z (by simp [hz])) (fun z hz => h2 z (by simp [hz])) h.2
      simp [hx, hxs]

theorem digitsOf_inj {a b : ℕ} (ha : a ≤ 9999) (hb : b ≤ 9999)
    (h : digitsOf a = digitsOf b) : a = b := by
  unfold digitsOf at h
  split_ifs at h <;> simp at h <;> omega

theorem pad2digits_inj {a b : ℕ} (ha : a ≤ 99) (hb : b ≤ 99)
    (h : pad2digits a = pad2digits b) : a = b := by
  unfold pad2digits digitsOf at h
  split_ifs at h <;> simp at h <;> omega

theorem nds_inj {a b : ℕ} (ha : a ≤ 9999) (hb : b ≤ 9999)
    (h : natToDecimalString a = natToDecimalString b) : a = b := by
  unfold natToDecimalString at h
  have h2 := congrArg String.data h
  exact digitsOf_inj ha hb (map_digitChar_inj _ _ (digitsOf_lt a ha) (digitsOf_lt b hb) h2)

theorem pad2len (n : ℕ) (h : n ≤ 99) : (pad2digits n).length = 2 := by
  unfold pad2digits digitsOf
  split_ifs <;> simp <;> omega

theorem dateString_inj {y m d y' m' d' : ℕ}
    (hy : y ≤ 9999) (hm : m ≤ 99) (hd : d ≤ 99)
    (hy' : y' ≤ 9999) (hm' : m' ≤ 99) (hd' : d' ≤ 99)
    (h : natToDecimalString y ++ "-" ++ pad2 m ++ "-" ++ pad2 d
       = natToDecimalString y' ++ "-" ++ pad2 m' ++ "-" ++ pad2 d') :
    y = y' ∧ m = m' ∧ d = d' := by
  have hdata := congrArg String.data h
  simp only [String.data_append] at hdata
  have hmkd : ∀ n : ℕ, (pad2 n).data = (pad2digits n).map digitChar := fun n => rfl
  have hmky : ∀ n : ℕ, (natToDecimalString n).data = (digitsOf n).map digitChar := fun n => rfl
  rw [hmkd, hmkd, hmkd, hmkd, hmky, hmky] at hdata
  -- split off the year part by length
  have hlen : ((digitsOf y).map digitChar).length = ((digitsOf y').map digitChar).length := by
    have := congrArg List.length hdata
    simp only [List.length_append, List.length_cons, List.length_map] at this
    rw [pad2len m hm, pad2len d hd, pad2len m' hm', pad2len d' hd'] at this
    simp only [List.length_map]
    omega
  simp only [List.append_assoc] at hdata
  obtain ⟨hyd, hrest⟩ := List.append_inj hdata hlen
  have hyy : y = y' :=
    digitsOf_inj hy hy' (map_digitChar_inj _ _ (digitsOf_lt y hy) (digitsOf_lt y' hy') hyd)
  simp only [List.singleton_append, List.cons.injEq, true_and] at hrest
  obtain ⟨hmd2, hrest2⟩ := List.append_inj hrest (by
    simp only [List.length_map]
    rw [pad2len m hm, pad2len m' hm'])
  have hmm : m = m' :=
    pad2digits_inj hm hm' (map_digitChar_inj _ _ (pad2digits_lt m (by omega)) (pad2digits_lt m' (by omega)) hmd2)
  simp only [List.singleton_append, List.cons.injEq, true_and] at hrest2
  have hdd : d = d' :=
    pad2digits_inj hd hd' (map_digitChar_inj _ _ (pad2digits_lt d (by omega)) (pad2digits_lt d' (by omega)) hrest2)
  exact ⟨hyy, hmm, hdd⟩

/-! ## Week and period resolution (source: `src/unnamed/part_002`) -/

/-- JS `date.getDay()` (Sunday = 0).  Day number 0 (0001-01-01) is a Monday,
    so `getDay = (dn + 1) % 7`. -/
def jsGetDay (dn : ℕ) : ℕ := (dn + 1) % 7

/-- `getMonday(date)`: `diff = d.getDate() - day + (day == 0 ? -6 : 1)`, then
    `setDate(diff)`.  `setDate` shifts the day number by `diff - d.getDate()`,
    i.e. by `(day == 0 ? -6 : 1) - day`, embedded here as day-number
    arithmetic (when `day ≠ 0`, `day = (dn+1) % 7 ≤ dn + 1`, so the natural
    subtraction below is exact). -/
def getMonday (dn : ℕ) : ℕ :=
  let day := jsGetDay dn
  if day = 0 then dn - 6 else dn + 1 - day

/-- `getSunday(date)`: Monday of the week plus 6 days. -/
def getSunday (dn : ℕ) : ℕ := getMonday dn + 6

/-- `getWeekDates(referenceDate)`: the 7 dates Monday..Sunday of the week. -/
def getWeekDates (dn : ℕ) : List ℕ := (List.range 7).map (fun i => getMonday dn + i)

/-- `getWeekId(date) = formatDate(getMonday(date))`. -/
def getWeekId (dn : ℕ) : String := formatDate (getMonday dn)

/-- The day number computed by `getBiweekId` (whose result is that day
    formatted):  `monday = getMonday(date)`;
    `firstOfMonth = new Date(monday.getFullYear(), monday.getMonth(), 1)`;
    `firstMonday = getMonday(firstOfMonth)`;
    `daysDiff = (monday - firstMonday)` in days;
    `biweekOffset = floor(daysDiff / 14) * 14`;
    result `= firstMonday + biweekOffset`. -/
def getBiweekIdDn (dn : ℕ) : ℕ :=
  let monday := getMonday dn
  let c := civilFromDays monday
  let firstOfMonth := daysFromCivil c.1 c.2.1 1
  let firstMonday := getMonday firstOfMonth
  let daysDiff := monday - firstMonday
  let biweekOffset := daysDiff / 14 * 14
  firstMonday + biweekOffset

/-- `getBiweekId(date)`: the biweekly period identifier string. -/
def getBiweekId (dn : ℕ) : String := formatDate (getBiweekIdDn dn)

/-- `getBiweekDates(date)`: `start = new Date(biweekId)` (reparsing the
    canonical start string recovers the start day in the model's fixed-UTC
    environment), `end = start + 13` days. -/
def getBiweekDates (dn : ℕ) : ℕ × ℕ := (getBiweekIdDn dn, getBiweekIdDn dn + 13)

/-- `getDateRange(start, end)`: all days from `start` while `≤ end`. -/
def getDateRange (s e : ℕ) : List ℕ := List.range' s (if s ≤ e then e - s + 1 else 0)

theorem getMonday_eq (dn : ℕ) : getMonday dn = dn - dn % 7 := by
  show (if (dn + 1) % 7 = 0 then dn - 6 else dn + 1 - (dn + 1) % 7) = dn - dn % 7
  split_ifs <;> omega

/-- `formatDate` is injective on the model's valid day range. -/
theorem formatDate_inj {a b : ℕ} (ha : a ≤ maxDn) (hb : b ≤ maxDn)
    (h : formatDate a = formatDate b) : a = b := by
  obtain ⟨hva, hra⟩ := civilFromDays_spec a ha
  obtain ⟨hvb, hrb⟩ := civilFromDays_spec b hb
  unfold formatDate at h
  obtain ⟨h1, h2, h3⟩ := dateString_inj
    (by exact hva.2.1.trans (by norm_num)) (by have := hva.2.2.2.1; omega)
    (by have h31 : daysInMonth (civilFromDays a).1 (civilFromDays a).2.1 ≤ 31 := by
          unfold daysInMonth; split_ifs <;> omega
        have := hva.2.2.2.2.2; omega)
    (by exact hvb.2.1.trans (by norm_num)) (by have := hvb.2.2.2.1; omega)
    (by have h31 : daysInMonth (civilFromDays b).1 (civilFromDays b).2.1 ≤ 31 := by
          unfold daysInMonth; split_ifs <;> omega
        have := hvb.2.2.2.2.2; omega)
    h
  rw [← hra, ← hrb, h1, h2, h3]

theorem monthString_inj {y m y' m' : ℕ}
    (hy : y ≤ 9999) (hm : m ≤ 99) (hy' : y' ≤ 9999) (hm' : m' ≤ 99)
    (h : natToDecimalString y ++ "-" ++ pad2 m = natToDecimalString y' ++ "-" ++ pad2 m') :
    y = y' ∧ m = m' := by
  have hdata := congrArg String.data h
  simp only [String.data_append] at hdata
  have hmkd : ∀ n : ℕ, (pad2 n).data = (pad2digits n).map digitChar := fun n => rfl
  have hmky : ∀ n : ℕ, (natToDecimalString n).data = (digitsOf n).map digitChar := fun n => rfl
  rw [hmkd, hmkd, hmky, hmky] at hdata
  have hlen : ((digitsOf y).map digitChar).length = ((digitsOf y').map digitChar).length := by
    have hL := congrArg List.length hdata
    simp only [List.length_append, List.length_cons, List.length_map] at hL
    rw [pad2len m hm, pad2len m' hm'] at hL
    simp only [List.length_map]
    omega
  simp only [List.append_assoc] at hdata
  obtain ⟨hyd, hrest⟩ := List.append_inj hdata hlen
  have hyy : y = y' :=
    digitsOf_inj hy hy' (map_digitChar_inj _ _ (digitsOf_lt y hy) (digitsOf_lt y' hy') hyd)
  simp only [List.singleton_append, List.cons.injEq, true_and] at hrest
  have hmm : m = m' :=
    pad2digits_inj hm hm' (map_digitChar_inj _ _ (pad2digits_lt m (by omega)) (pad2digits_lt m' (by omega)) hrest)
  exact ⟨hyy, hmm⟩

theorem daysInMonth_le31 (y m : ℕ) : daysInMonth y m ≤ 31 := by
  unfold daysInMonth
  split_ifs <;> omega

/-- Every day lies between the first and last day of its own civil month. -/
theorem month_interval {dn : ℕ} (h : dn ≤ maxDn) :
    daysFromCivil (civilFromDays dn).1 (civilFromDays dn).2.1 1 ≤ dn ∧
    dn ≤ daysFromCivil (civilFromDays dn).1 (civilFromDays dn).2.1
          (daysInMonth (civilFromDays dn).1 (civilFromDays dn).2.1) := by
  obtain ⟨hv, hr⟩ := civilFromDays_spec dn h
  obtain ⟨_, _, _, _, hd1, hd2⟩ := hv
  unfold daysFromCivil at hr ⊢
  omega

/-- A day lying in the interval of a civil month has that month as its civil
    month. -/
theorem civil_of_month_mem {y m dn : ℕ} (hv : validCivil y m 1)
    (h1 : daysFromCivil y m 1 ≤ dn) (h2 : dn ≤ daysFromCivil y m (daysInMonth y m)) :
    (civilFromDays dn).1 = y ∧ (civilFromDays dn).2.1 = m := by
  have hvd : validCivil y m (dn - daysFromCivil y m 1 + 1) :=
    ⟨hv.1, hv.2.1, hv.2.2.1, hv.2.2.2.1, by omega, by
      have hp := daysInMonth_pos y m
      unfold daysFromCivil at h1 h2 ⊢; omega⟩
  have he : daysFromCivil y m (dn - daysFromCivil y m 1 + 1) = dn := by
    unfold daysFromCivil at h1 h2 ⊢; omega
  have hc := civilFromDays_dfc hvd
  rw [he] at hc
  rw [hc]
  exact ⟨rfl, rfl⟩

/-- A day lying in the day range of year `y` has civil year `y`. -/
theorem year_of_day {y dn : ℕ} (hy1 : 1 ≤ y) (hy2 : y ≤ 9999)
    (h1 : yearStartDn y ≤ dn) (h2 : dn < yearStartDn (y+1)) (hdn : dn ≤ maxDn) :
    (civilFromDays dn).1 = y := by
  obtain ⟨hv, hr⟩ := civilFromDays_spec dn hdn
  have hb := dfc_year_bounds hv
  rw [hr] at hb
  rcases Nat.lt_trichotomy (civilFromDays dn).1 y with hlt | he | hgt
  · have := @yearStart_mono ((civilFromDays dn).1 + 1) y (by have := hv.1; omega) (by omega)
    omega
  · exact he
  · have := @yearStart_mono (y + 1) ((civilFromDays dn).1) (by omega) (by omega)
    omega

theorem dfc_jan1 (y : ℕ) : daysFromCivil y 1 1 = yearStartDn y := by
  have h1 : monthStartOffset y 1 = 0 := rfl
  unfold daysFromCivil
  omega

theorem dfc_dec31 (y : ℕ) (hy : 1 ≤ y) : daysFromCivil y 12 31 = yearStartDn (y+1) - 1 := by
  have hys := yearStart_succ y hy
  have h13 := monthStartOffset_year y
  have h12 : monthStartOffset y 13 = monthStartOffset y 12 + daysInMonth y 12 :=
    monthStartOffset_succ y 12 (by omega)
  have hd : daysInMonth y 12 = 31 := rfl
  unfold daysFromCivil
  omega

/-- Structure of `getBiweekIdDn` (used by the biweekly claims): the result is
    the Monday-of-the-week-of-the-1st of the Monday's month, plus a whole
    number of 14-day blocks, and the date lies in the 14-day closed range
    starting at the result. -/
theorem biweek_spec (dn : ℕ) (h : dn ≤ maxDn) :
    (∃ k : ℕ, getBiweekIdDn dn
        = getMonday (daysFromCivil (civilFromDays (getMonday dn)).1
            (civilFromDays (getMonday dn)).2.1 1) + 14 * k) ∧
    getBiweekIdDn dn ≤ dn ∧ dn ≤ getBiweekIdDn dn + 13 := by
  have hMeq := getMonday_eq dn
  set M := getMonday dn with hM
  have hMle : M ≤ maxDn := by omega
  obtain ⟨hv, hr⟩ := civilFromDays_spec M hMle
  set y := (civilFromDays M).1 with hy
  set m := (civilFromDays M).2.1 with hm
  set dd := (civilFromDays M).2.2 with hdd
  have hfm : daysFromCivil y m 1 ≤ M := by
    have hd1 : 1 ≤ dd := hv.2.2.2.2.1
    unfold daysFromCivil at hr ⊢
    omega
  have hanchor := getMonday_eq (daysFromCivil y m 1)
  set A := getMonday (daysFromCivil y m 1) with hA
  have hbw : getBiweekIdDn dn = A + (M - A) / 14 * 14 := rfl
  exact ⟨⟨(M - A)/14, by omega⟩, by omega, by omega⟩

/-! ## Claim theorems: calendar/period resolver (C3, C4, C5, C9) -/

/-- C5: for every date, `getMonday` returns the Monday of the Monday–Sunday
    week containing that date (it lands on a Monday, lies at most 6 days
    before the date, and is the unique such Monday); applied to a Sunday it
    returns the Monday 6 days earlier, a strictly earlier day, never the same
    day or a later Monday. -/
theorem getMonday_weekStart_correct (dn : ℕ) :
    jsGetDay (getMonday dn) = 1 ∧
    getMonday dn ≤ dn ∧ dn ≤ getMonday dn + 6 ∧
    (∀ w, jsGetDay w = 1 → w ≤ dn → dn ≤ w + 6 → w = getMonday dn) ∧
    (jsGetDay dn = 0 → getMonday dn = dn - 6 ∧ getMonday dn < dn) := by
  have he := getMonday_eq dn
  refine ⟨?_, by omega, by omega, ?_, ?_⟩
  · unfold jsGetDay
    omega
  · intro w hw h1 h2
    unfold jsGetDay at hw
    omega
  · intro h0
    unfold jsGetDay at h0
    omega

/-- Witness for C5 at a concrete Sunday (2025-10-05, day number 739528). -/
theorem getMonday_weekStart_correct_witness :
    jsGetDay 739528 = 0 ∧ getMonday 739528 = 739528 - 6 := by
  have h := (getMonday_weekStart_correct 739528).2.2.2.2 (by decide)
  exact ⟨by decide, h.1⟩

/-- C3: `getWeekId x = getWeekId d` exactly for the dates `x` of the
    Monday–Sunday week of `d`; `getMonthId` partitions dates by calendar month
    (ids agree iff both dates lie in the first-to-last-day range of one civil
    month); `getYearId` partitions dates by calendar year; and any weekly
    period range containing `x` carries the week id of `x` (so no date lies in
    two disjoint weekly periods). -/
theorem period_ids_partition (d x : ℕ) (hd : d ≤ maxDn) (hx : x ≤ maxDn) :
    (getWeekId x = getWeekId d ↔ (getMonday d ≤ x ∧ x ≤ getMonday d + 6)) ∧
    (getMonthId x = getMonthId d ↔ ∃ y m, validCivil y m 1 ∧
      daysFromCivil y m 1 ≤ x ∧ x ≤ daysFromCivil y m (daysInMonth y m) ∧
      daysFromCivil y m 1 ≤ d ∧ d ≤ daysFromCivil y m (daysInMonth y m)) ∧
    (getYearId x = getYearId d ↔ ∃ y, 1 ≤ y ∧ y ≤ 9999 ∧
      daysFromCivil y 1 1 ≤ x ∧ x ≤ daysFromCivil y 12 31 ∧
      daysFromCivil y 1 1 ≤ d ∧ d ≤ daysFromCivil y 12 31) ∧
    (∀ w, getMonday w ≤ x ∧ x ≤ getMonday w + 6 → getWeekId w = getWeekId x) := by
  have hex := getMonday_eq x
  have hed := getMonday_eq d
  obtain ⟨hvx, hrx⟩ := civilFromDays_spec x hx
  obtain ⟨hvd, hrd⟩ := civilFromDays_spec d hd
  refine ⟨⟨?_, ?_⟩, ⟨?_, ?_⟩, ⟨?_, ?_⟩, ?_⟩
  · intro h
    have hinj := @formatDate_inj (getMonday x) (getMonday d)
      (by omega) (by omega) h
    omega
  · intro hb
    have hmm : getMonday x = getMonday d := by omega
    unfold getWeekId
    rw [hmm]
  · intro h
    unfold getMonthId at h
    obtain ⟨hy, hm⟩ := monthString_inj
      (hvx.2.1.trans (by norm_num)) (by have := hvx.2.2.2.1; omega)
      (hvd.2.1.trans (by norm_num)) (by have := hvd.2.2.2.1; omega) h
    have hix := month_interval hx
    have hid := month_interval hd
    rw [hy, hm] at hix
    exact ⟨(civilFromDays d).1, (civilFromDays d).2.1,
      ⟨hvd.1, hvd.2.1, hvd.2.2.1, hvd.2.2.2.1, Nat.le_refl 1, daysInMonth_pos _ _⟩,
      hix.1, hix.2, hid.1, hid.2⟩
  · rintro ⟨y, m, hv, h1x, h2x, h1d, h2d⟩
    obtain ⟨hcx1, hcx2⟩ := civil_of_month_mem hv h1x h2x
    obtain ⟨hcd1, hcd2⟩ := civil_of_month_mem hv h1d h2d
    show natToDecimalString (civilFromDays x).1 ++ "-" ++ pad2 (civilFromDays x).2.1
        = natToDecimalString (civilFromDays d).1 ++ "-" ++ pad2 (civilFromDays d).2.1
    rw [hcx1, hcx2, hcd1, hcd2]
  · intro h
    unfold getYearId at h
    have hy := nds_inj (hvx.2.1.trans (by norm_num)) (hvd.2.1.trans (by norm_num)) h
    have hbx := dfc_year_bounds hvx
    have hbd := dfc_year_bounds hvd
    rw [hrx] at hbx
    rw [hrd] at hbd
    refine ⟨(civilFromDays d).1, hvd.1, hvd.2.1, ?_, ?_, ?_, ?_⟩
    · rw [dfc_jan1, ← hy]; exact hbx.1
    · rw [dfc_dec31 _ hvd.1, ← hy]; omega
    · rw [dfc_jan1]; exact hbd.1
    · rw [dfc_dec31 _ hvd.1]; omega
  · rintro ⟨y, hy1, hy2, h1x, h2x, h1d, h2d⟩
    rw [dfc_jan1] at h1x h1d
    rw [dfc_dec31 _ hy1] at h2x h2d
    have hsy := yearStart_succ y hy1
    have hdy : 1 ≤ daysInYear y := by unfold daysInYear; split_ifs <;> omega
    have hcx := year_of_day hy1 hy2 h1x (by omega) hx
    have hcd := year_of_day hy1 hy2 h1d (by omega) hd
    unfold getYearId
    rw [hcx, hcd]
  · intro w hw
    have hew := getMonday_eq w
    have hmm : getMonday w = getMonday x := by omega
    unfold getWeekId
    rw [hmm]

/-- Witness for C3 at 2025-10-08 (739531) and 2025-10-12 (739535), two dates
    of the same Monday–Sunday week, month and year. -/
theorem period_ids_partition_witness :
    ((739531 : ℕ) ≤ maxDn ∧ (739535 : ℕ) ≤ maxDn) ∧
    getWeekId 739535 = getWeekId 739531 ∧ getMonthId 739535 = getMonthId 739531 := by
  have h := period_ids_partition 739531 739535 (by decide) (by decide)
  refine ⟨⟨by decide, by decide⟩, h.1.mpr (by decide), h.2.1.mpr ?_⟩
  exact ⟨2025, 10, by decide, by decide, by decide, by decide, by decide⟩

/-- C4 (amended): `getBiweekIdDn` is the month anchor plus a whole multiple of
    14 days and its 14-day block contains the date — but the anchor of the
    month of `getMonday date` is `getMonday` of that month's 1st, i.e. the
    Monday on or *before* the 1st (the Monday of the week containing the 1st),
    not the first Monday on or after the 1st as the claim states. -/
theorem getBiweekId_monthAnchored (dn : ℕ) (h : dn ≤ maxDn) :
    getBiweekId dn = formatDate (getBiweekIdDn dn) ∧
    (∃ k : ℕ, getBiweekIdDn dn
        = getMonday (daysFromCivil (civilFromDays (getMonday dn)).1
            (civilFromDays (getMonday dn)).2.1 1) + 14 * k) ∧
    getBiweekIdDn dn ≤ dn ∧ dn ≤ getBiweekIdDn dn + 13 :=
  ⟨rfl, (biweek_spec dn h).1, (biweek_spec dn h).2.1, (biweek_spec dn h).2.2⟩

set_option maxRecDepth 100000

/-- Witness for the amended C4 at 2025-10-08 (739531): the block start is
    2025-09-29 (739522), the anchor of October's Monday-week is also
    2025-09-29, and the date lies in the block. -/
theorem getBiweekId_monthAnchored_witness :
    ((739531 : ℕ) ≤ maxDn) ∧
    getBiweekIdDn 739531 ≤ 739531 ∧ (739531 : ℕ) ≤ getBiweekIdDn 739531 + 13 := by
  have h := getBiweekId_monthAnchored 739531 (by decide)
  exact ⟨by decide, h.2.2.1, h.2.2.2⟩

/-- Modelled from the claim's wording for C4: the first Monday on or after a
    given day (Mondays are the day numbers ≡ 0 mod 7 in this model). -/
def firstMondayOnOrAfter (dn : ℕ) : ℕ := dn + (7 - dn % 7) % 7

/-- Counterexample to C4 as stated: at 2025-10-08 the code returns 2025-09-29,
    which is *not* the first Monday on or after 2025-10-01 (that is
    2025-10-06) plus a whole multiple of 14 days. -/
theorem getBiweekId_c4_counterexample :
    getBiweekIdDn (daysFromCivil 2025 10 8) = daysFromCivil 2025 9 29 ∧
    firstMondayOnOrAfter (daysFromCivil 2025 10 1) = daysFromCivil 2025 10 6 ∧
    ∀ k : ℕ, daysFromCivil 2025 9 29 ≠ firstMondayOnOrAfter (daysFromCivil 2025 10 1) + 14 * k := by
  refine ⟨by decide, by decide, ?_⟩
  intro k
  have h1 : daysFromCivil 2025 9 29 = 739522 := by decide
  have h2 : firstMondayOnOrAfter (daysFromCivil 2025 10 1) = 739529 := by decide
  rw [h1, h2]
  omega

/-- C9 (amended): every date lies within the closed start–end range of its own
    biweekly period (the range `getBiweekDates` computes from its
    `getBiweekId`); the ranges of two distinct biweek ids, however, can
    overlap, so the ranges do not partition the calendar. -/
theorem getBiweekDates_contains (dn : ℕ) (h : dn ≤ maxDn) :
    (getBiweekDates dn).1 ≤ dn ∧ dn ≤ (getBiweekDates dn).2 :=
  ⟨(biweek_spec dn h).2.1, (biweek_spec dn h).2.2⟩

/-- Witness for the amended C9 at 2025-12-02 (739586). -/
theorem getBiweekDates_contains_witness :
    ((739586 : ℕ) ≤ maxDn) ∧
    (getBiweekDates 739586).1 ≤ 739586 ∧ (739586 : ℕ) ≤ (getBiweekDates 739586).2 := by
  have h := getBiweekDates_contains 739586 (by decide)
  exact ⟨by decide, h.1, h.2⟩

/-- Counterexample to C9 as stated: 2025-12-02 (739586) lies in the biweekly
    range of the period of 2025-11-28 (block 2025-11-24 … 2025-12-07) *and* in
    the range of its own period (block 2025-12-01 … 2025-12-14), two periods
    with distinct identifiers — the biweekly ranges are not disjoint. -/
theorem getBiweekDates_c9_counterexample :
    getBiweekIdDn (daysFromCivil 2025 11 28) = daysFromCivil 2025 11 24 ∧
    getBiweekIdDn (daysFromCivil 2025 12 2) = daysFromCivil 2025 12 1 ∧
    getBiweekId (daysFromCivil 2025 11 28) ≠ getBiweekId (daysFromCivil 2025 12 2) ∧
    ((getBiweekDates (daysFromCivil 2025 11 28)).1 ≤ daysFromCivil 2025 12 2 ∧
     daysFromCivil 2025 12 2 ≤ (getBiweekDates (daysFromCivil 2025 11 28)).2) ∧
    ((getBiweekDates (daysFromCivil 2025 12 2)).1 ≤ daysFromCivil 2025 12 2 ∧
     daysFromCivil 2025 12 2 ≤ (getBiweekDates (daysFromCivil 2025 12 2)).2) := by
  refine ⟨by decide, by decide, ?_, by decide, by decide⟩
  intro hcontra
  unfold getBiweekId at hcontra
  have h1 : getBiweekIdDn (daysFromCivil 2025 11 28) = 739578 := by decide
  have h2 : getBiweekIdDn (daysFromCivil 2025 12 2) = 739585 := by decide
  rw [h1, h2] at hcontra
  have := formatDate_inj (by decide) (by decide) hcontra
  omega

/-! ## JS value and number model (for `src/utils/reports.js`)

Entry fields read from the document store are duck-typed; the rollup code
coerces them with `parseFloat(x) || 0`, JS truthiness and implicit `ToNumber`
conversion.  JS numbers are modelled by `ℚ`; `NaN` (which the code can
produce, see C7) is modelled by `none` in `Option ℚ`, with NaN-propagating
arithmetic. -/

/-- A duck-typed JS field value: a (finite) number, `NaN`, a string, or
    `undefined`. -/
inductive JVal where
  | num (q : ℚ)
  | nan
  | str (s : String)
  | undef
deriving DecidableEq

/-- JS truthiness of a field value (`0`, `NaN`, `""`, `undefined` are falsy). -/
def truthy : JVal → Bool
  | .num q => q != 0
  | .nan => false
  | .str s => s != ""
  | .undef => false

/-- Digit characters consumed from the front of a char list. -/
def takeDigits : List Char → List ℕ
  | [] => []
  | c :: cs => if c.isDigit then (c.toNat - 48) :: takeDigits cs else []

/-- The natural number denoted by a digit list (most significant first). -/
def digitsToNat (l : List ℕ) : ℕ := l.foldl (fun a d => 10*a + d) 0

/-- The fractional value denoted by the digits after the decimal point. -/
def fracValue (l : List ℕ) : ℚ := l.foldr (fun d a => (d + a) / 10) 0

/-- Parse an unsigned decimal prefix (`digits`, `digits.digits` or
    `.digits`), returning the value and the unconsumed rest; `none` when no
    digits can be consumed (JS `NaN`). -/
def parseUnsignedR (cs : List Char) : Option (ℚ × List Char) :=
  let intDigits := takeDigits cs
  match cs.drop intDigits.length with
  | '.' :: rest2 =>
      let fracDigits := takeDigits rest2
      if intDigits.isEmpty ∧ fracDigits.isEmpty then none
      else some (digitsToNat intDigits + fracValue fracDigits, rest2.drop fracDigits.length)
  | rest => if intDigits.isEmpty then none else some (digitsToNat intDigits, rest)

/-- Skip leading spaces and an optional sign, then parse the longest numeric
    prefix, returning the (signed) value and the unconsumed rest. -/
def jsParseFloatR (s : String) : Option (ℚ × List Char) :=
  match s.data.dropWhile (fun c => c = ' ') with
  | '-' :: cs => (parseUnsignedR cs).map (fun p => (-p.1, p.2))
  | '+' :: cs => (parseUnsignedR cs).map (fun p => (p.1, p.2))
  | cs => (parseUnsignedR cs).map (fun p => (p.1, p.2))

/-- Model of JS `parseFloat` on a string: the longest numeric prefix after
    leading whitespace and an optional sign; `NaN` (`none`) if none exists. -/
def jsParseFloat (s : String) : Option ℚ := (jsParseFloatR s).map (fun p => p.1)

/-- Model of JS `ToNumber` on a string: a whitespace-only string denotes `0`;
    otherwise the string must be a complete signed decimal numeral (up to
    trailing whitespace), else `NaN`. -/
def jsToNumber (s : String) : Option ℚ :=
  if (s.data.dropWhile (fun c => c = ' ')).isEmpty then some 0
  else match jsParseFloatR s with
    | some (q, rest) => if (rest.dropWhile (fun c => c = ' ')).isEmpty then some q else none
    | none => none

/-- JS `parseFloat(v)` on a field value (`ToString` then parse; a finite
    number's string form reparses to itself; `parseFloat` of `undefined`
    parses the string `"undefined"`, i.e. `NaN`). -/
def jvParseFloat : JVal → Option ℚ
  | .num q => some q
  | .nan => none
  | .str s => jsParseFloat s
  | .undef => none

/-- The code's lenient coercion `parseFloat(x) || 0` (`NaN` — and `0` itself —
    fall through to `0`). -/
def parseFloatOr0 (v : JVal) : ℚ :=
  match jvParseFloat v with
  | some q => q
  | none => 0

/-- JS `ToNumber(v)`: the implicit coercion applied by arithmetic and
    relational operators; `none` models `NaN`. -/
def jvToNumber : JVal → Option ℚ
  | .num q => some q
  | .nan => none
  | .str s => jsToNumber s
  | .undef => none

/-- NaN-propagating addition on JS numbers. -/
def wadd : Option ℚ → Option ℚ → Option ℚ
  | some a, some b => some (a + b)
  | _, _ => none

/-- NaN-propagating multiplication on JS numbers. -/
def wmul : Option ℚ → Option ℚ → Option ℚ
  | some a, some b => some (a * b)
  | _, _ => none

/-- NaN-propagating subtraction on JS numbers. -/
def wsub : Option ℚ → Option ℚ → Option ℚ
  | some a, some b => some (a - b)
  | _, _ => none

/-- NaN-propagating division (used only under a `> 0` guard in the code). -/
def wdiv : Option ℚ → Option ℚ → Option ℚ
  | some a, some b => some (a / b)
  | _, _ => none

/-- Decimal rounding to 2 places: models `parseFloat(x.toFixed(2))`
    (`toFixed` rounds to the nearest hundredth; exact ties, unrealisable in
    binary floating point, round up here). -/
def round2 (q : ℚ) : ℚ := (⌊q * 100 + 1/2⌋ : ℚ) / 100

/-- Decimal rounding to 1 place: models `parseFloat(x.toFixed(1))`. -/
def round1 (q : ℚ) : ℚ := (⌊q * 10 + 1/2⌋ : ℚ) / 10

/-! ## Entries and the overtime calculator -/

/-- A daily entry record.  `date` is the day number denoted by the entry's
    canonical `YYYY-MM-DD` string; `parseLocalDate` (imported by the source
    from `date.js` but not present in the provided sources; per spec §4.2 it
    parses at day granularity, normalised to midnight) is therefore the
    identity in this model.  `hours` and `hourlyRate` are duck-typed. -/
structure Entry where
  date : ℕ
  hours : JVal
  hourlyRate : JVal
deriving DecidableEq

/-- Result record of `calculateWeeklyEarningsWithOvertime`. -/
structure WeekCalc where
  regularHours : ℚ
  overtimeHours : ℚ
  regularEarnings : Option ℚ
  overtimeEarnings : Option ℚ
  totalEarnings : Option ℚ
deriving DecidableEq

/-- `calculateWeeklyEarningsWithOvertime(weekEntries)`
    (source: `src/utils/reports.js` lines 303–336):
    `totalHours = Σ (parseFloat(e.hours) || 0)`;
    `hourlyRate = weekEntries.find(e => e.hourlyRate)?.hourlyRate || 0` — the
    first *truthy* rate, used raw (no `parseFloat`), hence the `ToNumber`
    coercion in the earnings products below; then the ≤ 40 / > 40 split, all
    five outputs rounded to 2 decimals, with `totalEarnings` computed from the
    *unrounded* earnings. -/
def calculateWeeklyEarningsWithOvertime (weekEntries : List Entry) : WeekCalc :=
  let totalHours : ℚ := weekEntries.foldl (fun sum e => sum + parseFloatOr0 e.hours) 0
  let hourlyRate : JVal :=
    match weekEntries.find? (fun e => truthy e.hourlyRate) with
    | some e => e.hourlyRate
    | none => JVal.num 0
  let rateN : Option ℚ := jvToNumber hourlyRate
  if totalHours ≤ 40 then
    let regularEarnings := wmul (some totalHours) rateN
    { regularHours := round2 totalHours
      overtimeHours := round2 0
      regularEarnings := regularEarnings.map round2
      overtimeEarnings := (some 0).map round2
      totalEarnings := (wadd regularEarnings (some 0)).map round2 }
  else
    let overtimeHours := totalHours - 40
    let regularEarnings := wmul (some 40) rateN
    let overtimeEarnings := wmul (wmul (some overtimeHours) rateN) (some (3/2))
    { regularHours := round2 40
      overtimeHours := round2 overtimeHours
      regularEarnings := regularEarnings.map round2
      overtimeEarnings := overtimeEarnings.map round2
      totalEarnings := (wadd regularEarnings overtimeEarnings).map round2 }

/-! ## The rollup aggregator -/

/-- Append `e` under key `k` in an insertion-ordered association list (JS
    object with non-index string keys: `Object.values` iterates in
    key-insertion order). -/
def groupInsert (m : List (String × List Entry)) (k : String) (e : Entry) :
    List (String × List Entry) :=
  match m with
  | [] => [(k, [e])]
  | (k', l) :: rest =>
      if k' = k then (k', l ++ [e]) :: rest else (k', l) :: groupInsert rest k e

/-- `entriesByWeek`: group entries by `getWeekId(parseLocalDate(e.date))`. -/
def groupByWeek (entries : List Entry) : List (String × List Entry) :=
  entries.foldl (fun m e => groupInsert m (getWeekId e.date) e) []

/-- The rollup record returned by `calculateRollup`. -/
structure Rollup where
  periodStart : String
  periodEnd : String
  totalHours : ℚ
  regularHours : ℚ
  overtimeHours : ℚ
  totalEarnings : Option ℚ
  regularEarnings : Option ℚ
  overtimeEarnings : Option ℚ
  daysWorked : ℕ
  totalDays : ℕ
  averageHoursPerDay : ℚ
  averageHoursPerDayIncludingNonWork : ℚ
  entries : List Entry
  lastUpdated : String
deriving DecidableEq

/-- `(e.hours || 0) > 0`: JS truthiness then relational comparison (which
    applies `ToNumber`; a `NaN` comparison is false). -/
def hoursPositive (v : JVal) : Bool :=
  match jvToNumber (if truthy v then v else JVal.num 0) with
  | some q => 0 < q
  | none => false

/-- `calculateRollup(entries, periodStart, periodEnd)`
    (source: `src/utils/reports.js` lines 345–420).  Midnight normalisation
    of the period bounds is the identity at day granularity.  `now` is the
    clock value `new Date().toISOString()` read for `lastUpdated`. -/
def calculateRollup (entries : List Entry) (periodStart periodEnd : ℕ)
    (now : String) : Rollup :=
  let start := periodStart
  let stop := periodEnd
  let periodEntries := entries.filter fun e => decide (start ≤ e.date) && decide (e.date ≤ stop)
  let totalHours : ℚ := periodEntries.foldl (fun sum e => sum + parseFloatOr0 e.hours) 0
  let entriesByWeek := groupByWeek periodEntries
  let acc := entriesByWeek.foldl
    (fun (acc : ℚ × ℚ × Option ℚ × Option ℚ × Option ℚ) kv =>
      let weekCalc := calculateWeeklyEarningsWithOvertime kv.2
      (acc.1 + weekCalc.regularHours,
       acc.2.1 + weekCalc.overtimeHours,
       wadd acc.2.2.1 weekCalc.regularEarnings,
       wadd acc.2.2.2.1 weekCalc.overtimeEarnings,
       wadd acc.2.2.2.2 weekCalc.totalEarnings))
    (0, 0, some 0, some 0, some 0)
  let daysWorked := (periodEntries.filter fun e => hoursPositive e.hours).length
  let averageHoursPerDay : ℚ := if daysWorked > 0 then totalHours / daysWorked else 0
  let allDates := getDateRange periodStart periodEnd
  let totalDays := allDates.length
  let averageHoursPerDayIncludingNonWork : ℚ :=
    if totalDays > 0 then totalHours / totalDays else 0
  { periodStart := formatDate periodStart
    periodEnd := formatDate periodEnd
    totalHours := round2 totalHours
    regularHours := round2 acc.1
    overtimeHours := round2 acc.2.1
    totalEarnings := acc.2.2.2.2.map round2
    regularEarnings := acc.2.2.1.map round2
    overtimeEarnings := acc.2.2.2.1.map round2
    daysWorked := daysWorked
    totalDays := totalDays
    averageHoursPerDay := round2 averageHoursPerDay
    averageHoursPerDayIncludingNonWork := round2 averageHoursPerDayIncludingNonWork
    entries := periodEntries
    lastUpdated := now }

/-! ## The comparison engine -/

/-- The rollup fields read by `calculateComparison`; a stored previous record
    may be partially written, so each field may be undefined (`none`). -/
structure CmpRollup where
  totalHours : Option ℚ
  totalEarnings : Option ℚ
  daysWorked : Option ℚ
  averageHoursPerDay : Option ℚ

/-- Result record of `calculateComparison`. -/
structure Comparison where
  hoursChange : Option ℚ
  hoursChangePercent : Option ℚ
  earningsChange : Option ℚ
  earningsChangePercent : Option ℚ
  daysWorkedChange : Option ℚ
  averageHoursChange : Option ℚ
deriving DecidableEq

/-- Falsiness of `previousRollup.totalHours`: undefined, `NaN` and `0` are
    falsy. -/
def numFalsy : Option ℚ → Bool
  | none => true
  | some q => q == 0

/-- `x > 0` on a possibly-undefined JS number (`NaN` comparisons are false). -/
def wgt0 : Option ℚ → Bool
  | none => false
  | some q => decide (0 < q)

/-- `calculateComparison(currentRollup, previousRollup)`
    (source: `src/utils/reports.js` lines 487–521). -/
def calculateComparison (currentRollup : CmpRollup)
    (previousRollup : Option CmpRollup) : Comparison :=
  match previousRollup with
  | none => ⟨some 0, some 0, some 0, some 0, some 0, some 0⟩
  | some prev =>
    if numFalsy prev.totalHours then ⟨some 0, some 0, some 0, some 0, some 0, some 0⟩
    else
      let hoursChange := wsub currentRollup.totalHours prev.totalHours
      let hoursChangePercent := if wgt0 prev.totalHours
        then wmul (wdiv hoursChange prev.totalHours) (some 100) else some 0
      let earningsChange := wsub currentRollup.totalEarnings prev.totalEarnings
      let earningsChangePercent := if wgt0 prev.totalEarnings
        then wmul (wdiv earningsChange prev.totalEarnings) (some 100) else some 0
      let daysWorkedChange := wsub currentRollup.daysWorked prev.daysWorked
      let averageHoursChange :=
        wsub currentRollup.averageHoursPerDay prev.averageHoursPerDay
      { hoursChange := hoursChange.map round2
        hoursChangePercent := hoursChangePercent.map round1
        earningsChange := earningsChange.map round2
        earningsChangePercent := earningsChangePercent.map round1
        daysWorkedChange := daysWorkedChange
        averageHoursChange := averageHoursChange.map round2 }

/-! ## The by-month chart aggregator -/

/-- A month bucket produced by `aggregateByMonth` (rounded). -/
structure MonthBucket where
  monthId : String
  hours : ℚ
  earnings : Option ℚ
  regularHours : ℚ
  overtimeHours : ℚ
  regularEarnings : Option ℚ
  overtimeEarnings : Option ℚ
deriving DecidableEq

/-- Insert into the week map of `aggregateByMonth`: a new week key stores
    `monthId = getMonthId(entryDate)` of the entry that creates it (the first
    entry of that week in input order); later entries of the week are
    appended without touching the stored `monthId`. -/
def weekMapInsert (m : List (String × (List Entry × String))) (k : String)
    (monthId : String) (e : Entry) : List (String × (List Entry × String)) :=
  match m with
  | [] => [(k, ([e], monthId))]
  | (k', v) :: rest =>
      if k' = k then (k', (v.1 ++ [e], v.2)) :: rest
      else (k', v) :: weekMapInsert rest k monthId e

/-- The `weekMap` built by the first loop of `aggregateByMonth`. -/
def buildWeekMap (entries : List Entry) : List (String × (List Entry × String)) :=
  entries.foldl (fun m e => weekMapInsert m (getWeekId e.date) (getMonthId e.date) e) []

/-- Raw (unrounded) month accumulator of `aggregateByMonth`'s second loop. -/
structure MonthAcc where
  monthId : String
  hours : ℚ
  earnings : Option ℚ
  regularHours : ℚ
  overtimeHours : ℚ
  regularEarnings : Option ℚ
  overtimeEarnings : Option ℚ

/-- Accumulate one week's totals into the month map (creating a zeroed bucket
    for a new `monthId` first, as the source does). -/
def monthMapAdd (m : List (String × MonthAcc)) (monthId : String)
    (hours : ℚ) (wc : WeekCalc) : List (String × MonthAcc) :=
  match m with
  | [] => [(monthId, ⟨monthId, 0 + hours, wadd (some 0) wc.totalEarnings,
      0 + wc.regularHours, 0 + wc.overtimeHours,
      wadd (some 0) wc.regularEarnings, wadd (some 0) wc.overtimeEarnings⟩)]
  | (k', a) :: rest =>
      if k' = monthId then
        (k', ⟨a.monthId, a.hours + hours, wadd a.earnings wc.totalEarnings,
          a.regularHours + wc.regularHours, a.overtimeHours + wc.overtimeHours,
          wadd a.regularEarnings wc.regularEarnings,
          wadd a.overtimeEarnings wc.overtimeEarnings⟩) :: rest
      else (k', a) :: monthMapAdd rest monthId hours wc

/-- Round a raw month accumulator into the output bucket shape. -/
def roundMonthAcc (a : MonthAcc) : MonthBucket :=
  { monthId := a.monthId
    hours := round2 a.hours
    earnings := a.earnings.map round2
    regularHours := round2 a.regularHours
    overtimeHours := round2 a.overtimeHours
    regularEarnings := a.regularEarnings.map round2
    overtimeEarnings := a.overtimeEarnings.map round2 }

/-- `aggregateByMonth(entries)` (source: `src/utils/reports.js` lines
    593–647): group by week (recording each week's `monthId` from its first
    entry), fold each week's overtime-adjusted totals into that `monthId`'s
    bucket, round, and sort by `monthId` ascending (`localeCompare` agrees
    with codepoint order on these ASCII ids; JS `sort` is stable). -/
def aggregateByMonth (entries : List Entry) : List MonthBucket :=
  let weekMap := buildWeekMap entries
  let monthMap := weekMap.foldl
    (fun mm kv =>
      let overtimeCalc := calculateWeeklyEarningsWithOvertime kv.2.1
      let totalHours : ℚ := kv.2.1.foldl (fun s e => s + parseFloatOr0 e.hours) 0
      monthMapAdd mm kv.2.2 totalHours overtimeCalc)
    []
  let result := monthMap.map fun kv => roundMonthAcc kv.2
  result.mergeSort fun a b => decide (a.monthId ≤ b.monthId)

/-- Reference recomputation of `aggregateByMonth` following the words of
    claim C10: group the entries by week id (in first-appearance order, each
    group in input order), attribute each week group *wholly* to the
    `getMonthId` of the group's first entry in input order, then aggregate,
    round and sort exactly as `aggregateByMonth` does. -/
def aggregateByMonthClaim (entries : List Entry) : List MonthBucket :=
  let weekGroups := groupByWeek entries
  let monthMap := weekGroups.foldl
    (fun mm kv =>
      let monthId := match kv.2.head? with
        | some e0 => getMonthId e0.date
        | none => ""
      let overtimeCalc := calculateWeeklyEarningsWithOvertime kv.2
      let totalHours : ℚ := kv.2.foldl (fun s e => s + parseFloatOr0 e.hours) 0
      monthMapAdd mm monthId totalHours overtimeCalc)
    []
  let result := monthMap.map fun kv => roundMonthAcc kv.2
  result.mergeSort fun a b => decide (a.monthId ≤ b.monthId)

/-! ## Rounding and aggregation lemmas -/

theorem round2_sub_abs (q : ℚ) : |round2 q - q| ≤ 1/200 := by
  unfold round2
  have h1 : (⌊q * 100 + 1/2⌋ : ℚ) ≤ q * 100 + 1/2 := Int.floor_le _
  have h2 : q * 100 + 1/2 < ⌊q * 100 + 1/2⌋ + 1 := Int.lt_floor_add_one _
  rw [abs_le]
  constructor <;> linarith

theorem round2_intMul (q : ℚ) : ∃ n : ℤ, round2 q = n / 100 := ⟨⌊q * 100 + 1/2⌋, rfl⟩

theorem round2_fix (n : ℤ) : round2 ((n : ℚ)/100) = (n : ℚ)/100 := by
  unfold round2
  have he : (n : ℚ)/100*100 + 1/2 = (n : ℚ) + 1/2 := by
    field_simp
  rw [he, Int.floor_int_add]
  have h2 : ⌊(1:ℚ)/2⌋ = 0 := by norm_num
  rw [h2]
  push_cast
  ring

theorem round2_zero : round2 0 = 0 := by
  unfold round2
  norm_num

theorem round2_forty : round2 40 = 40 := by
  have h := round2_fix 4000
  norm_num at h
  exact h

theorem foldl_add_eq_sum (f : Entry → ℚ) : ∀ (l : List Entry) (a : ℚ),
    l.foldl (fun s e => s + f e) a = a + (l.map f).sum := by
  intro l
  induction l with
  | nil => intro a; simp
  | cons e rest ih =>
    intro a
    simp only [List.foldl_cons, List.map_cons, List.sum_cons]
    rw [ih]
    ring

theorem groupInsert_sum (f : Entry → ℚ) (k : String) (e : Entry) :
    ∀ m, ((groupInsert m k e).map (fun kv => (kv.2.map f).sum)).sum
      = ((m.map fun kv => (kv.2.map f).sum).sum) + f e := by
  intro m
  induction m with
  | nil => simp [groupInsert]
  | cons kv rest ih =>
    obtain ⟨k', l⟩ := kv
    by_cases h : k' = k <;> simp [groupInsert, h, ih] <;> ring

theorem groupByWeek_sum (f : Entry → ℚ) (l : List Entry) :
    ((groupByWeek l).map (fun kv => (kv.2.map f).sum)).sum = (l.map f).sum := by
  suffices h : ∀ (l : List Entry) (m : List (String × List Entry)),
      ((l.foldl (fun m e => groupInsert m (getWeekId e.date) e) m).map
        (fun kv => (kv.2.map f).sum)).sum
        = ((m.map fun kv => (kv.2.map f).sum).sum) + (l.map f).sum by
    have hh := h l []
    simpa [groupByWeek] using hh
  intro l
  induction l with
  | nil => intro m; simp
  | cons e rest ih =>
    intro m
    simp only [List.foldl_cons, List.map_cons, List.sum_cons]
    rw [ih, groupInsert_sum]
    ring

theorem groupInsert_mem (m : List (String × List Entry)) (k : String) (e : Entry) :
    ∀ kv ∈ groupInsert m k e, ∀ x ∈ kv.2, x = e ∨ ∃ kv' ∈ m, x ∈ kv'.2 := by
  induction m with
  | nil =>
    intro kv hkv x hx
    simp [groupInsert] at hkv
    subst hkv
    simp at hx
    exact Or.inl hx
  | cons kv0 rest ih =>
    obtain ⟨k', l⟩ := kv0
    intro kv hkv x hx
    by_cases h : k' = k
    · rw [show groupInsert ((k', l) :: rest) k e = (k', l ++ [e]) :: rest by
        simp [groupInsert, h]] at hkv
      rw [List.mem_cons] at hkv
      rcases hkv with hkv | hkv
      · subst hkv
        simp only [List.mem_append, List.mem_singleton] at hx
        rcases hx with hx | hx
        · exact Or.inr ⟨(k', l), by simp, hx⟩
        · exact Or.inl hx
      · exact Or.inr ⟨kv, by simp [hkv], hx⟩
    · rw [show groupInsert ((k', l) :: rest) k e = (k', l) :: groupInsert rest k e by
        simp [groupInsert, h]] at hkv
      rw [List.mem_cons] at hkv
      rcases hkv with hkv | hkv
      · subst hkv
        exact Or.inr ⟨(k', l), by simp, hx⟩
      · rcases ih kv hkv x hx with h1 | ⟨kv', hkv', hx'⟩
        · exact Or.inl h1
        · exact Or.inr ⟨kv', by simp [hkv'], hx'⟩

theorem groupByWeek_mem (l : List Entry) :
    ∀ kv ∈ groupByWeek l, ∀ x ∈ kv.2, x ∈ l := by
  suffices h : ∀ (l : List Entry) (m : List (String × List Entry)),
      ∀ kv ∈ l.foldl (fun m e => groupInsert m (getWeekId e.date) e) m,
      ∀ x ∈ kv.2, (∃ kv' ∈ m, x ∈ kv'.2) ∨ x ∈ l by
    intro kv hkv x hx
    rcases h l [] kv hkv x hx with ⟨kv', hkv', _⟩ | hx'
    · simp at hkv'
    · exact hx'
  intro l
  induction l with
  | nil =>
    intro m kv hkv x hx
    exact Or.inl ⟨kv, hkv, hx⟩
  | cons e rest ih =>
    intro m kv hkv x hx
    simp only [List.foldl_cons] at hkv
    rcases ih _ kv hkv x hx with ⟨kv', hkv', hx'⟩ | hx'
    · rcases groupInsert_mem m (getWeekId e.date) e kv' hkv' x hx' with h1 | ⟨kv'', hkv'', hx''⟩
      · simp [h1]
      · exact Or.inl ⟨kv'', hkv'', hx''⟩
    · simp [hx']

theorem sum_div100 (l : List ℚ) (h : ∀ x ∈ l, ∃ n : ℤ, x = (n : ℚ)/100) :
    ∃ n : ℤ, l.sum = (n : ℚ)/100 := by
  induction l with
  | nil => exact ⟨0, by simp⟩
  | cons x rest ih =>
    obtain ⟨n, hn⟩ := h x (by simp)
    obtain ⟨m, hm⟩ := ih (fun y hy => h y (by simp [hy]))
    refine ⟨n + m, ?_⟩
    simp only [List.sum_cons, hn, hm]
    push_cast
    ring

theorem abs_sum_le (c : ℚ) (hc : 0 ≤ c) :
    ∀ l : List ℚ, (∀ x ∈ l, |x| ≤ c) → |l.sum| ≤ l.length * c := by
  intro l
  induction l with
  | nil => intro _; simp
  | cons x rest ih =>
    intro h
    have h1 := h x (by simp)
    have h2 := ih (fun y hy => h y (by simp [hy]))
    have h3 := abs_add x rest.sum
    simp only [List.sum_cons, List.length_cons]
    push_cast
    nlinarith

/-- The effective hourly rate value seen by the overtime calculator when all
    rates are numbers: the rate of the first entry with a nonzero rate, 0 if
    none (spec §4.3). -/
def firstNonzeroRate : List Entry → ℚ
  | [] => 0
  | e :: rest =>
      match e.hourlyRate with
      | .num q => if q ≠ 0 then q else firstNonzeroRate rest
      | _ => firstNonzeroRate rest

/-- Under all-numeric rates, the code's truthy-`find` rate equals
    `firstNonzeroRate`. -/
theorem find_rate_eq (l : List Entry)
    (hr : ∀ en ∈ l, ∃ r, en.hourlyRate = JVal.num r) :
    (match l.find? (fun e => truthy e.hourlyRate) with
     | some e => e.hourlyRate
     | none => JVal.num 0) = JVal.num (firstNonzeroRate l) := by
  induction l with
  | nil => rfl
  | cons e rest ih =>
    obtain ⟨r, hrr⟩ := hr e (by simp)
    by_cases h0 : r = 0
    · have ht : truthy e.hourlyRate = false := by
        rw [hrr, h0]
        simp [truthy]
      rw [List.find?_cons_of_neg _ (by simp [ht])]
      have hfr : firstNonzeroRate (e :: rest) = firstNonzeroRate rest := by
        have h1 : firstNonzeroRate (e :: rest)
            = (match e.hourlyRate with
               | JVal.num q => if q ≠ 0 then q else firstNonzeroRate rest
               | _ => firstNonzeroRate rest) := rfl
        rw [h1, hrr, h0]
        simp
      rw [hfr]
      exact ih (fun en hen => hr en (by simp [hen]))
    · have ht : truthy e.hourlyRate = true := by
        rw [hrr]
        simp [truthy, h0]
      rw [List.find?_cons_of_pos _ (by simp [ht])]
      have hfr : firstNonzeroRate (e :: rest) = r := by
        have h1 : firstNonzeroRate (e :: rest)
            = (match e.hourlyRate with
               | JVal.num q => if q ≠ 0 then q else firstNonzeroRate rest
               | _ => firstNonzeroRate rest) := rfl
        rw [h1, hrr]
        simp [h0]
      rw [hfr]
      exact hrr

/-- Structure of the overtime calculator's output when all rates are numeric:
    the rounded fields arise from a regular/overtime split of the summed
    hours, and the three earnings fields are defined (not NaN), the total
    being the rounding of the sum of the unrounded parts. -/
theorem weekCalc_structure (l : List Entry)
    (hr : ∀ en ∈ l, ∃ r, en.hourlyRate = JVal.num r) :
    ∃ reg ot a b : ℚ,
      reg + ot = (l.map fun e => parseFloatOr0 e.hours).sum ∧
      (round2 reg = reg ∨ round2 ot = ot) ∧
      (calculateWeeklyEarningsWithOvertime l).regularHours = round2 reg ∧
      (calculateWeeklyEarningsWithOvertime l).overtimeHours = round2 ot ∧
      (calculateWeeklyEarningsWithOvertime l).regularEarnings = some (round2 a) ∧
      (calculateWeeklyEarningsWithOvertime l).overtimeEarnings = some (round2 b) ∧
      (calculateWeeklyEarningsWithOvertime l).totalEarnings = some (round2 (a + b)) := by
  have hT := foldl_add_eq_sum (fun e => parseFloatOr0 e.hours) l 0
  rw [zero_add] at hT
  have hR := find_rate_eq l hr
  simp only [calculateWeeklyEarningsWithOvertime, hR, jvToNumber]
  by_cases hc : l.foldl (fun s e => s + parseFloatOr0 e.hours) 0 ≤ 40
  · rw [if_pos hc]
    refine ⟨l.foldl (fun s e => s + parseFloatOr0 e.hours) 0, 0,
      (l.foldl (fun s e => s + parseFloatOr0 e.hours) 0) * firstNonzeroRate l, 0,
      by rw [← hT]; ring, Or.inr round2_zero, rfl, rfl, ?_, ?_, ?_⟩
    · simp [wmul]
    · simp
    · simp [wmul, wadd]
  · rw [if_neg hc]
    refine ⟨40, l.foldl (fun s e => s + parseFloatOr0 e.hours) 0 - 40,
      40 * firstNonzeroRate l,
      (l.foldl (fun s e => s + parseFloatOr0 e.hours) 0 - 40) * firstNonzeroRate l * (3/2),
      by rw [← hT]; ring, Or.inl round2_forty, rfl, rfl, ?_, ?_, ?_⟩
    · simp [wmul]
    · simp [wmul]
    · simp [wmul, wadd]

/-- The rollup accumulator loop, characterised componentwise when every
    week's earnings are defined. -/
theorem acc_spec (re oe te : (String × List Entry) → ℚ) :
    ∀ (groups : List (String × List Entry)),
    (∀ kv ∈ groups,
      (calculateWeeklyEarningsWithOvertime kv.2).regularEarnings = some (re kv) ∧
      (calculateWeeklyEarningsWithOvertime kv.2).overtimeEarnings = some (oe kv) ∧
      (calculateWeeklyEarningsWithOvertime kv.2).totalEarnings = some (te kv)) →
    ∀ (h0 o0 x y z : ℚ),
    groups.foldl
      (fun (acc : ℚ × ℚ × Option ℚ × Option ℚ × Option ℚ) kv =>
        let weekCalc := calculateWeeklyEarningsWithOvertime kv.2
        (acc.1 + weekCalc.regularHours,
         acc.2.1 + weekCalc.overtimeHours,
         wadd acc.2.2.1 weekCalc.regularEarnings,
         wadd acc.2.2.2.1 weekCalc.overtimeEarnings,
         wadd acc.2.2.2.2 weekCalc.totalEarnings))
      (h0, o0, some x, some y, some z)
      = (h0 + (groups.map fun kv =>
           (calculateWeeklyEarningsWithOvertime kv.2).regularHours).sum,
         o0 + (groups.map fun kv =>
           (calculateWeeklyEarningsWithOvertime kv.2).overtimeHours).sum,
         some (x + (groups.map re).sum),
         some (y + (groups.map oe).sum),
         some (z + (groups.map te).sum)) := by
  intro groups
  induction groups with
  | nil =>
    intro _ h0 o0 x y z
    simp
  | cons kv rest ih =>
    intro h hh0 o0 x y z
    obtain ⟨hre, hoe, hte⟩ := h kv (by simp)
    simp only [List.foldl_cons, List.map_cons, List.sum_cons]
    rw [hre, hoe, hte]
    show rest.foldl _
      (hh0 + (calculateWeeklyEarningsWithOvertime kv.2).regularHours,
       o0 + (calculateWeeklyEarningsWithOvertime kv.2).overtimeHours,
       some (x + re kv), some (y + oe kv), some (z + te kv)) = _
    rw [ih (fun kv' hkv' => h kv' (by simp [hkv'])) _ _ _ _ _]
    refine Prod.ext ?_ (Prod.ext ?_ (Prod.ext ?_ (Prod.ext ?_ ?_))) <;>
      simp <;> ring

theorem sum_map_sub3 (f g h : (String × List Entry) → ℚ) :
    ∀ l : List (String × List Entry),
      (l.map f).sum + (l.map g).sum - (l.map h).sum
        = (l.map fun x => f x + g x - h x).sum := by
  intro l
  induction l with
  | nil => simp
  | cons x rest ih =>
    simp only [List.map_cons, List.sum_cons]
    rw [← ih]
    ring

/-! ## Claim theorems: conservation (C2) -/

/-- C2 (amended): for numeric entries, the rollup's earnings are all defined
    (no NaN), both conservation deviations `regularHours + overtimeHours −
    totalHours` and `regularEarnings + overtimeEarnings − totalEarnings` are
    whole multiples of 0.01, the hours deviation is bounded by
    `(W+1)·0.005` and the earnings deviation by `W·0.015`, where `W` is the
    number of week-groups in the period — and when the period's entries span
    at most one week both deviations are within ±0.01 as claimed.  (For
    multi-week periods the per-week roundings accumulate and the claimed
    ±0.01 fails; see the counterexample.) -/
theorem rollup_conservation (entries : List Entry) (s e : ℕ) (t : String)
    (hnum : ∀ en ∈ entries, ∃ q r, en.hours = JVal.num q ∧ en.hourlyRate = JVal.num r) :
    ∃ (te re oe : ℚ) (nh ne : ℤ),
      (calculateRollup entries s e t).totalEarnings = some te ∧
      (calculateRollup entries s e t).regularEarnings = some re ∧
      (calculateRollup entries s e t).overtimeEarnings = some oe ∧
      (calculateRollup entries s e t).regularHours
          + (calculateRollup entries s e t).overtimeHours
          - (calculateRollup entries s e t).totalHours = (nh : ℚ)/100 ∧
      re + oe - te = (ne : ℚ)/100 ∧
      |(calculateRollup entries s e t).regularHours
          + (calculateRollup entries s e t).overtimeHours
          - (calculateRollup entries s e t).totalHours|
        ≤ (((groupByWeek (entries.filter fun en =>
              decide (s ≤ en.date) && decide (en.date ≤ e))).length : ℚ) + 1) / 200 ∧
      |re + oe - te|
        ≤ 3 * (((groupByWeek (entries.filter fun en =>
              decide (s ≤ en.date) && decide (en.date ≤ e))).length : ℚ)) / 200 ∧
      ((groupByWeek (entries.filter fun en =>
            decide (s ≤ en.date) && decide (en.date ≤ e))).length ≤ 1 →
        |(calculateRollup entries s e t).regularHours
            + (calculateRollup entries s e t).overtimeHours
            - (calculateRollup entries s e t).totalHours| ≤ 1/100 ∧
        |re + oe - te| ≤ 1/100) := by
  set P := entries.filter (fun en => decide (s ≤ en.date) && decide (en.date ≤ e)) with hP
  set G := groupByWeek P with hG
  have hPnum : ∀ en ∈ P, ∃ q r, en.hours = JVal.num q ∧ en.hourlyRate = JVal.num r :=
    fun en hen => hnum en (List.mem_of_mem_filter hen)
  have hGnum : ∀ kv ∈ G, ∀ en ∈ kv.2, ∃ r, en.hourlyRate = JVal.num r := by
    intro kv hkv en hen
    obtain ⟨q, r, _, hr⟩ := hPnum en (groupByWeek_mem P kv hkv en hen)
    exact ⟨r, hr⟩
  have hstruct := fun kv (hkv : kv ∈ G) => weekCalc_structure kv.2 (hGnum kv hkv)
  have hsome : ∀ kv ∈ G,
      (calculateWeeklyEarningsWithOvertime kv.2).regularEarnings
        = some (((calculateWeeklyEarningsWithOvertime kv.2).regularEarnings).getD 0) ∧
      (calculateWeeklyEarningsWithOvertime kv.2).overtimeEarnings
        = some (((calculateWeeklyEarningsWithOvertime kv.2).overtimeEarnings).getD 0) ∧
      (calculateWeeklyEarningsWithOvertime kv.2).totalEarnings
        = some (((calculateWeeklyEarningsWithOvertime kv.2).totalEarnings).getD 0) := by
    intro kv hkv
    obtain ⟨reg, ot, a, b, _, _, _, _, hre, hoe, hte⟩ := hstruct kv hkv
    rw [hre, hoe, hte]
    simp
  have hacc := acc_spec
    (fun kv => ((calculateWeeklyEarningsWithOvertime kv.2).regularEarnings).getD 0)
    (fun kv => ((calculateWeeklyEarningsWithOvertime kv.2).overtimeEarnings).getD 0)
    (fun kv => ((calculateWeeklyEarningsWithOvertime kv.2).totalEarnings).getD 0)
    G hsome 0 0 0 0 0
  -- the five accumulator-derived fields of the rollup
  have hRreg : (calculateRollup entries s e t).regularHours
      = round2 ((G.foldl
          (fun (acc : ℚ × ℚ × Option ℚ × Option ℚ × Option ℚ) kv =>
            let weekCalc := calculateWeeklyEarningsWithOvertime kv.2
            (acc.1 + weekCalc.regularHours,
             acc.2.1 + weekCalc.overtimeHours,
             wadd acc.2.2.1 weekCalc.regularEarnings,
             wadd acc.2.2.2.1 weekCalc.overtimeEarnings,
             wadd acc.2.2.2.2 weekCalc.totalEarnings))
          (0, 0, some 0, some 0, some 0)).1) := rfl
  have hRot : (calculateRollup entries s e t).overtimeHours
      = round2 ((G.foldl
          (fun (acc : ℚ × ℚ × Option ℚ × Option ℚ × Option ℚ) kv =>
            let weekCalc := calculateWeeklyEarningsWithOvertime kv.2
            (acc.1 + weekCalc.regularHours,
             acc.2.1 + weekCalc.overtimeHours,
             wadd acc.2.2.1 weekCalc.regularEarnings,
             wadd acc.2.2.2.1 weekCalc.overtimeEarnings,
             wadd acc.2.2.2.2 weekCalc.totalEarnings))
          (0, 0, some 0, some 0, some 0)).2.1) := rfl
  have hRre : (calculateRollup entries s e t).regularEarnings
      = ((G.foldl
          (fun (acc : ℚ × ℚ × Option ℚ × Option ℚ × Option ℚ) kv =>
            let weekCalc := calculateWeeklyEarningsWithOvertime kv.2
            (acc.1 + weekCalc.regularHours,
             acc.2.1 + weekCalc.overtimeHours,
             wadd acc.2.2.1 weekCalc.regularEarnings,
             wadd acc.2.2.2.1 weekCalc.overtimeEarnings,
             wadd acc.2.2.2.2 weekCalc.totalEarnings))
          (0, 0, some 0, some 0, some 0)).2.2.1).map round2 := rfl
  have hRoe : (calculateRollup entries s e t).overtimeEarnings
      = ((G.foldl
          (fun (acc : ℚ × ℚ × Option ℚ × Option ℚ × Option ℚ) kv =>
            let weekCalc := calculateWeeklyEarningsWithOvertime kv.2
            (acc.1 + weekCalc.regularHours,
             acc.2.1 + weekCalc.overtimeHours,
             wadd acc.2.2.1 weekCalc.regularEarnings,
             wadd acc.2.2.2.1 weekCalc.overtimeEarnings,
             wadd acc.2.2.2.2 weekCalc.totalEarnings))
          (0, 0, some 0, some 0, some 0)).2.2.2.1).map round2 := rfl
  have hRte : (calculateRollup entries s e t).totalEarnings
      = ((G.foldl
          (fun (acc : ℚ × ℚ × Option ℚ × Option ℚ × Option ℚ) kv =>
            let weekCalc := calculateWeeklyEarningsWithOvertime kv.2
            (acc.1 + weekCalc.regularHours,
             acc.2.1 + weekCalc.overtimeHours,
             wadd acc.2.2.1 weekCalc.regularEarnings,
             wadd acc.2.2.2.1 weekCalc.overtimeEarnings,
             wadd acc.2.2.2.2 weekCalc.totalEarnings))
          (0, 0, some 0, some 0, some 0)).2.2.2.2).map round2 := rfl
  rw [hacc] at hRreg hRot hRre hRoe hRte
  simp only [zero_add, Option.map_some'] at hRreg hRot hRre hRoe hRte
  -- sums of rounded values are multiples of 1/100, so the outer rounding fixes them
  have hmul : ∀ (f : (String × List Entry) → ℚ),
      (∀ kv ∈ G, ∃ n : ℤ, f kv = (n : ℚ)/100) →
      ∃ n : ℤ, (G.map f).sum = (n : ℚ)/100 := by
    intro f hf
    apply sum_div100
    intro x hx
    rw [List.mem_map] at hx
    obtain ⟨kv, hkv, rfl⟩ := hx
    exact hf kv hkv
  obtain ⟨nreg, hnreg⟩ := hmul _ (fun kv hkv => by
    show ∃ n : ℤ, (calculateWeeklyEarningsWithOvertime kv.2).regularHours = (n:ℚ)/100
    obtain ⟨reg, ot, a, b, _, _, hrh, _, _, _, _⟩ := hstruct kv hkv
    rw [hrh]; exact round2_intMul reg)
  obtain ⟨not', hnot⟩ := hmul _ (fun kv hkv => by
    show ∃ n : ℤ, (calculateWeeklyEarningsWithOvertime kv.2).overtimeHours = (n:ℚ)/100
    obtain ⟨reg, ot, a, b, _, _, _, hoh, _, _, _⟩ := hstruct kv hkv
    rw [hoh]; exact round2_intMul ot)
  obtain ⟨nre, hnre⟩ := hmul _ (fun kv hkv => by
    show ∃ n : ℤ, ((calculateWeeklyEarningsWithOvertime kv.2).regularEarnings).getD 0 = (n:ℚ)/100
    obtain ⟨reg, ot, a, b, _, _, _, _, hre, _, _⟩ := hstruct kv hkv
    rw [hre]; simp only [Option.getD_some]; exact round2_intMul a)
  obtain ⟨noe, hnoe⟩ := hmul _ (fun kv hkv => by
    show ∃ n : ℤ, ((calculateWeeklyEarningsWithOvertime kv.2).overtimeEarnings).getD 0 = (n:ℚ)/100
    obtain ⟨reg, ot, a, b, _, _, _, _, _, hoe, _⟩ := hstruct kv hkv
    rw [hoe]; simp only [Option.getD_some]; exact round2_intMul b)
  obtain ⟨nte, hnte⟩ := hmul _ (fun kv hkv => by
    show ∃ n : ℤ, ((calculateWeeklyEarningsWithOvertime kv.2).totalEarnings).getD 0 = (n:ℚ)/100
    obtain ⟨reg, ot, a, b, _, _, _, _, _, _, hte⟩ := hstruct kv hkv
    rw [hte]; simp only [Option.getD_some]; exact round2_intMul (a+b))
  have hRregS : (calculateRollup entries s e t).regularHours
      = (G.map fun kv => (calculateWeeklyEarningsWithOvertime kv.2).regularHours).sum := by
    rw [hRreg, hnreg, round2_fix, ← hnreg]
  have hRotS : (calculateRollup entries s e t).overtimeHours
      = (G.map fun kv => (calculateWeeklyEarningsWithOvertime kv.2).overtimeHours).sum := by
    rw [hRot, hnot, round2_fix, ← hnot]
  have hRreS : (calculateRollup entries s e t).regularEarnings
      = some ((G.map fun kv =>
          ((calculateWeeklyEarningsWithOvertime kv.2).regularEarnings).getD 0).sum) := by
    rw [hRre, hnre, round2_fix, ← hnre]
  have hRoeS : (calculateRollup entries s e t).overtimeEarnings
      = some ((G.map fun kv =>
          ((calculateWeeklyEarningsWithOvertime kv.2).overtimeEarnings).getD 0).sum) := by
    rw [hRoe, hnoe, round2_fix, ← hnoe]
  have hRteS : (calculateRollup entries s e t).totalEarnings
      = some ((G.map fun kv =>
          ((calculateWeeklyEarningsWithOvertime kv.2).totalEarnings).getD 0).sum) := by
    rw [hRte, hnte, round2_fix, ← hnte]
  -- totalHours as the sum over the groups
  have hTH : (calculateRollup entries s e t).totalHours
      = round2 ((G.map fun kv => (kv.2.map fun e' => parseFloatOr0 e'.hours).sum).sum) := by
    have h0 : (calculateRollup entries s e t).totalHours
        = round2 (P.foldl (fun sum e' => sum + parseFloatOr0 e'.hours) 0) := rfl
    rw [h0, foldl_add_eq_sum, zero_add, ← groupByWeek_sum (fun e' => parseFloatOr0 e'.hours) P]
  obtain ⟨nth, hnth⟩ := round2_intMul
    ((G.map fun kv => (kv.2.map fun e' => parseFloatOr0 e'.hours).sum).sum)
  -- hours deviation
  have hΔh : (calculateRollup entries s e t).regularHours
      + (calculateRollup entries s e t).overtimeHours
      - (calculateRollup entries s e t).totalHours
      = (G.map fun kv => (calculateWeeklyEarningsWithOvertime kv.2).regularHours
          + (calculateWeeklyEarningsWithOvertime kv.2).overtimeHours
          - (kv.2.map fun e' => parseFloatOr0 e'.hours).sum).sum
        + ((G.map fun kv => (kv.2.map fun e' => parseFloatOr0 e'.hours).sum).sum
          - round2 ((G.map fun kv => (kv.2.map fun e' => parseFloatOr0 e'.hours).sum).sum)) := by
    rw [hRregS, hRotS, hTH, ← sum_map_sub3]
    ring
  have hδbound : ∀ x ∈ (G.map fun kv =>
      (calculateWeeklyEarningsWithOvertime kv.2).regularHours
        + (calculateWeeklyEarningsWithOvertime kv.2).overtimeHours
        - (kv.2.map fun e' => parseFloatOr0 e'.hours).sum), |x| ≤ 1/200 := by
    intro x hx
    rw [List.mem_map] at hx
    obtain ⟨kv, hkv, rfl⟩ := hx
    obtain ⟨reg, ot, a, b, hsum, hexact, hrh, hoh, _, _, _⟩ := hstruct kv hkv
    rw [hrh, hoh, ← hsum]
    rcases hexact with hx' | hx'
    · rw [hx']
      have heq : reg + round2 ot - (reg + ot) = round2 ot - ot := by ring
      rw [heq]
      exact round2_sub_abs ot
    · rw [hx']
      have heq : round2 reg + ot - (reg + ot) = round2 reg - reg := by ring
      rw [heq]
      exact round2_sub_abs reg
  have habs1 := abs_sum_le (1/200) (by norm_num) _ hδbound
  rw [List.length_map] at habs1
  have habs2 := round2_sub_abs
    ((G.map fun kv => (kv.2.map fun e' => parseFloatOr0 e'.hours).sum).sum)
  have hΔhb : |(calculateRollup entries s e t).regularHours
      + (calculateRollup entries s e t).overtimeHours
      - (calculateRollup entries s e t).totalHours| ≤ ((G.length : ℚ) + 1) / 200 := by
    rw [hΔh]
    have htri := abs_add
      ((G.map fun kv => (calculateWeeklyEarningsWithOvertime kv.2).regularHours
          + (calculateWeeklyEarningsWithOvertime kv.2).overtimeHours
          - (kv.2.map fun e' => parseFloatOr0 e'.hours).sum).sum)
      ((G.map fun kv => (kv.2.map fun e' => parseFloatOr0 e'.hours).sum).sum
        - round2 ((G.map fun kv => (kv.2.map fun e' => parseFloatOr0 e'.hours).sum).sum))
    have habs2' : |(G.map fun kv => (kv.2.map fun e' => parseFloatOr0 e'.hours).sum).sum
        - round2 ((G.map fun kv => (kv.2.map fun e' => parseFloatOr0 e'.hours).sum).sum)| ≤ 1/200 := by
      rw [abs_sub_comm]
      exact habs2
    calc _ ≤ _ := htri
    _ ≤ (G.length : ℚ) * (1/200) + 1/200 := by linarith
    _ = ((G.length : ℚ) + 1) / 200 := by ring
  -- earnings deviation
  have hΔe : (G.map fun kv =>
        ((calculateWeeklyEarningsWithOvertime kv.2).regularEarnings).getD 0).sum
      + (G.map fun kv =>
        ((calculateWeeklyEarningsWithOvertime kv.2).overtimeEarnings).getD 0).sum
      - (G.map fun kv =>
        ((calculateWeeklyEarningsWithOvertime kv.2).totalEarnings).getD 0).sum
      = (G.map fun kv =>
          ((calculateWeeklyEarningsWithOvertime kv.2).regularEarnings).getD 0
          + ((calculateWeeklyEarningsWithOvertime kv.2).overtimeEarnings).getD 0
          - ((calculateWeeklyEarningsWithOvertime kv.2).totalEarnings).getD 0).sum :=
    sum_map_sub3 _ _ _ G
  have hεbound : ∀ x ∈ (G.map fun kv =>
      ((calculateWeeklyEarningsWithOvertime kv.2).regularEarnings).getD 0
      + ((calculateWeeklyEarningsWithOvertime kv.2).overtimeEarnings).getD 0
      - ((calculateWeeklyEarningsWithOvertime kv.2).totalEarnings).getD 0), |x| ≤ 3/200 := by
    intro x hx
    rw [List.mem_map] at hx
    obtain ⟨kv, hkv, rfl⟩ := hx
    obtain ⟨reg, ot, a, b, _, _, _, _, hre, hoe, hte⟩ := hstruct kv hkv
    rw [hre, hoe, hte]
    simp only [Option.getD_some]
    have h1 := round2_sub_abs a
    have h2 := round2_sub_abs b
    have h3 := round2_sub_abs (a+b)
    rw [abs_le] at h1 h2 h3 ⊢
    constructor <;> linarith
  have habs3 := abs_sum_le (3/200) (by norm_num) _ hεbound
  rw [List.length_map] at habs3
  refine ⟨(G.map fun kv =>
      ((calculateWeeklyEarningsWithOvertime kv.2).totalEarnings).getD 0).sum,
    (G.map fun kv =>
      ((calculateWeeklyEarningsWithOvertime kv.2).regularEarnings).getD 0).sum,
    (G.map fun kv =>
      ((calculateWeeklyEarningsWithOvertime kv.2).overtimeEarnings).getD 0).sum,
    nreg + not' - nth, nre + noe - nte,
    hRteS, hRreS, hRoeS, ?_, ?_, hΔhb, ?_, ?_⟩
  · rw [hRregS, hRotS, hTH, hnth, hnreg, hnot]
    push_cast
    ring
  · rw [hnre, hnoe, hnte]
    push_cast
    ring
  · rw [hΔe]
    calc _ ≤ (G.length : ℚ) * (3/200) := habs3
    _ = 3 * (G.length : ℚ) / 200 := by ring
  · intro hW
    have hWq : (G.length : ℚ) ≤ 1 := by exact_mod_cast hW
    constructor
    · calc _ ≤ ((G.length : ℚ) + 1) / 200 := hΔhb
      _ ≤ 1/100 := by linarith
    · have hb : |(G.map fun kv =>
          ((calculateWeeklyEarningsWithOvertime kv.2).regularEarnings).getD 0).sum
          + (G.map fun kv =>
            ((calculateWeeklyEarningsWithOvertime kv.2).overtimeEarnings).getD 0).sum
          - (G.map fun kv =>
            ((calculateWeeklyEarningsWithOvertime kv.2).totalEarnings).getD 0).sum|
          ≤ 3/200 := by
        rw [hΔe]
        calc _ ≤ (G.length : ℚ) * (3/200) := habs3
        _ ≤ 3/200 := by linarith
      have hval : (G.map fun kv =>
          ((calculateWeeklyEarningsWithOvertime kv.2).regularEarnings).getD 0).sum
          + (G.map fun kv =>
            ((calculateWeeklyEarningsWithOvertime kv.2).overtimeEarnings).getD 0).sum
          - (G.map fun kv =>
            ((calculateWeeklyEarningsWithOvertime kv.2).totalEarnings).getD 0).sum
          = ((nre + noe - nte : ℤ) : ℚ)/100 := by
        rw [hnre, hnoe, hnte]
        push_cast
        ring
      rw [hval] at hb ⊢
      rw [abs_div, abs_of_nonneg (by norm_num : (0:ℚ) ≤ 100)] at hb ⊢
      have hint : |nre + noe - nte| ≤ 1 := by
        by_contra hc
        push_neg at hc
        have h2 : (2:ℚ) ≤ |((nre + noe - nte : ℤ) : ℚ)| := by
          rw [← Int.cast_abs]
          exact_mod_cast hc
        linarith
      have : |((nre + noe - nte : ℤ) : ℚ)| ≤ 1 := by
        rw [← Int.cast_abs]
        exact_mod_cast hint
      linarith

/-- Witness for the amended C2 at a one-entry, one-week period: both
    conservation equations hold within ±0.01. -/
theorem rollup_conservation_witness :
    (∀ en ∈ [({ date := 739522, hours := JVal.num 8, hourlyRate := JVal.num 10 } : Entry)],
      ∃ q r, en.hours = JVal.num q ∧ en.hourlyRate = JVal.num r) ∧
    |(calculateRollup [{ date := 739522, hours := JVal.num 8, hourlyRate := JVal.num 10 }]
        739522 739522 "t").regularHours
      + (calculateRollup [{ date := 739522, hours := JVal.num 8, hourlyRate := JVal.num 10 }]
        739522 739522 "t").overtimeHours
      - (calculateRollup [{ date := 739522, hours := JVal.num 8, hourlyRate := JVal.num 10 }]
        739522 739522 "t").totalHours| ≤ 1/100 := by
  have hnum : ∀ en ∈ [({ date := 739522, hours := JVal.num 8, hourlyRate := JVal.num 10 } : Entry)],
      ∃ q r, en.hours = JVal.num q ∧ en.hourlyRate = JVal.num r := by
    intro en hen
    rw [List.mem_singleton] at hen
    subst hen
    exact ⟨8, 10, rfl, rfl⟩
  obtain ⟨te, re, oe, nh, ne, h1, h2, h3, h4, h5, h6, h7, h8⟩ :=
    rollup_conservation [{ date := 739522, hours := JVal.num 8, hourlyRate := JVal.num 10 }]
      739522 739522 "t" hnum
  exact ⟨hnum, (h8 (by with_unfolding_all decide)).1⟩

/-- Counterexample to C2 as stated: a (monthly-like) period containing five
    single-entry weeks of 8.006 hours each.  Each week's `regularHours` rounds
    to 8.01, so the rollup reports `regularHours = 40.05`,
    `overtimeHours = 0`, but `totalHours = round2(40.03) = 40.03` — the hours
    conservation misses by 0.02 > 0.01. -/
theorem rollup_conservation_c2_counterexample :
    ¬ (|(calculateRollup
        [{ date := 739494, hours := JVal.num (8006/1000), hourlyRate := JVal.num 10 },
         { date := 739501, hours := JVal.num (8006/1000), hourlyRate := JVal.num 10 },
         { date := 739508, hours := JVal.num (8006/1000), hourlyRate := JVal.num 10 },
         { date := 739515, hours := JVal.num (8006/1000), hourlyRate := JVal.num 10 },
         { date := 739522, hours := JVal.num (8006/1000), hourlyRate := JVal.num 10 }]
        739494 739523 "t").regularHours
      + (calculateRollup
        [{ date := 739494, hours := JVal.num (8006/1000), hourlyRate := JVal.num 10 },
         { date := 739501, hours := JVal.num (8006/1000), hourlyRate := JVal.num 10 },
         { date := 739508, hours := JVal.num (8006/1000), hourlyRate := JVal.num 10 },
         { date := 739515, hours := JVal.num (8006/1000), hourlyRate := JVal.num 10 },
         { date := 739522, hours := JVal.num (8006/1000), hourlyRate := JVal.num 10 }]
        739494 739523 "t").overtimeHours
      - (calculateRollup
        [{ date := 739494, hours := JVal.num (8006/1000), hourlyRate := JVal.num 10 },
         { date := 739501, hours := JVal.num (8006/1000), hourlyRate := JVal.num 10 },
         { date := 739508, hours := JVal.num (8006/1000), hourlyRate := JVal.num 10 },
         { date := 739515, hours := JVal.num (8006/1000), hourlyRate := JVal.num 10 },
         { date := 739522, hours := JVal.num (8006/1000), hourlyRate := JVal.num 10 }]
        739494 739523 "t").totalHours| ≤ 1/100) := by
  have hval : (calculateRollup
        [{ date := 739494, hours := JVal.num (8006/1000), hourlyRate := JVal.num 10 },
         { date := 739501, hours := JVal.num (8006/1000), hourlyRate := JVal.num 10 },
         { date := 739508, hours := JVal.num (8006/1000), hourlyRate := JVal.num 10 },
         { date := 739515, hours := JVal.num (8006/1000), hourlyRate := JVal.num 10 },
         { date := 739522, hours := JVal.num (8006/1000), hourlyRate := JVal.num 10 }]
        739494 739523 "t").regularHours
      + (calculateRollup
        [{ date := 739494, hours := JVal.num (8006/1000), hourlyRate := JVal.num 10 },
         { date := 739501, hours := JVal.num (8006/1000), hourlyRate := JVal.num 10 },
         { date := 739508, hours := JVal.num (8006/1000), hourlyRate := JVal.num 10 },
         { date := 739515, hours := JVal.num (8006/1000), hourlyRate := JVal.num 10 },
         { date := 739522, hours := JVal.num (8006/1000), hourlyRate := JVal.num 10 }]
        739494 739523 "t").overtimeHours
      - (calculateRollup
        [{ date := 739494, hours := JVal.num (8006/1000), hourlyRate := JVal.num 10 },
         { date := 739501, hours := JVal.num (8006/1000), hourlyRate := JVal.num 10 },
         { date := 739508, hours := JVal.num (8006/1000), hourlyRate := JVal.num 10 },
         { date := 739515, hours := JVal.num (8006/1000), hourlyRate := JVal.num 10 },
         { date := 739522, hours := JVal.num (8006/1000), hourlyRate := JVal.num 10 }]
        739494 739523 "t").totalHours = 2/100 := by
    with_unfolding_all decide
  rw [hval, abs_of_nonneg (by norm_num : (0:ℚ) ≤ 2/100)]
  norm_num

/-! ## Claim theorems: overtime calculator (C1) -/

/-- C1: for a week's entries (numeric hours and rates), the overtime
    calculator splits the summed hours at 40: with total `T` and week rate `R`
    (first nonzero rate, 0 if none), if `T ≤ 40` the result is
    `⟨T, 0, T·R, 0, T·R⟩` and otherwise
    `⟨40, T−40, 40·R, (T−40)·R·1.5, 40·R+(T−40)·R·1.5⟩`, with every returned
    field rounded to 2 decimals. -/
theorem weekly_overtime_split (weekEntries : List Entry)
    (hnum : ∀ en ∈ weekEntries, ∃ q r, en.hours = JVal.num q ∧ en.hourlyRate = JVal.num r) :
    ((weekEntries.map fun e => parseFloatOr0 e.hours).sum ≤ 40 →
      calculateWeeklyEarningsWithOvertime weekEntries =
        { regularHours := round2 ((weekEntries.map fun e => parseFloatOr0 e.hours).sum)
          overtimeHours := 0
          regularEarnings := some (round2
            ((weekEntries.map fun e => parseFloatOr0 e.hours).sum * firstNonzeroRate weekEntries))
          overtimeEarnings := some 0
          totalEarnings := some (round2
            ((weekEntries.map fun e => parseFloatOr0 e.hours).sum * firstNonzeroRate weekEntries)) }) ∧
    (40 < (weekEntries.map fun e => parseFloatOr0 e.hours).sum →
      calculateWeeklyEarningsWithOvertime weekEntries =
        { regularHours := 40
          overtimeHours := round2 ((weekEntries.map fun e => parseFloatOr0 e.hours).sum - 40)
          regularEarnings := some (round2 (40 * firstNonzeroRate weekEntries))
          overtimeEarnings := some (round2
            (((weekEntries.map fun e => parseFloatOr0 e.hours).sum - 40)
              * firstNonzeroRate weekEntries * (3/2)))
          totalEarnings := some (round2
            (40 * firstNonzeroRate weekEntries
              + ((weekEntries.map fun e => parseFloatOr0 e.hours).sum - 40)
                * firstNonzeroRate weekEntries * (3/2))) }) := by
  have hT := foldl_add_eq_sum (fun e => parseFloatOr0 e.hours) weekEntries 0
  rw [zero_add] at hT
  have hR := find_rate_eq weekEntries fun en hen =>
    (hnum en hen).elim fun q hqr => hqr.elim fun r hp => ⟨r, hp.2⟩
  constructor
  · intro hle
    have hle' : weekEntries.foldl (fun s e => s + parseFloatOr0 e.hours) 0 ≤ 40 := by
      rw [hT]; exact hle
    simp only [calculateWeeklyEarningsWithOvertime, hR, jvToNumber, if_pos hle']
    rw [hT]
    simp [wmul, wadd, round2_zero]
  · intro hgt
    have hgt' : ¬ weekEntries.foldl (fun s e => s + parseFloatOr0 e.hours) 0 ≤ 40 := by
      rw [hT]; exact not_le.mpr hgt
    simp only [calculateWeeklyEarningsWithOvertime, hR, jvToNumber, if_neg hgt']
    rw [hT]
    simp [wmul, wadd, round2_forty]

/-- Witness for C1: one 45-hour entry at rate 20 yields `regularHours = 40`,
    `overtimeHours = 5`, `regularEarnings = 800`, `overtimeEarnings = 150`,
    `totalEarnings = 950`. -/
theorem weekly_overtime_split_witness :
    (∀ en ∈ [({ date := 739522, hours := JVal.num 45, hourlyRate := JVal.num 20 } : Entry)],
      ∃ q r, en.hours = JVal.num q ∧ en.hourlyRate = JVal.num r) ∧
    calculateWeeklyEarningsWithOvertime
        [{ date := 739522, hours := JVal.num 45, hourlyRate := JVal.num 20 }] =
      { regularHours := 40, overtimeHours := 5, regularEarnings := some 800,
        overtimeEarnings := some 150, totalEarnings := some 950 } := by
  have hnum : ∀ en ∈ [({ date := 739522, hours := JVal.num 45, hourlyRate := JVal.num 20 } : Entry)],
      ∃ q r, en.hours = JVal.num q ∧ en.hourlyRate = JVal.num r := by
    intro en hen
    rw [List.mem_singleton] at hen
    subst hen
    exact ⟨45, 20, rfl, rfl⟩
  refine ⟨hnum, ?_⟩
  have h := (weekly_overtime_split _ hnum).2 (by with_unfolding_all decide)
  rw [h]
  with_unfolding_all decide

/-! ## Claim theorems: rollup engine (C6, C8) -/

/-- All fields of a rollup except `lastUpdated`. -/
def rollupData (r : Rollup) :=
  (r.periodStart, r.periodEnd, r.totalHours, r.regularHours, r.overtimeHours,
   r.totalEarnings, r.regularEarnings, r.overtimeEarnings, r.daysWorked,
   r.totalDays, r.averageHoursPerDay, r.averageHoursPerDayIncludingNonWork,
   r.entries)

/-- C6: `calculateRollup` called twice on identical inputs (same entries and
    period bounds) produces identical rollups in every field except
    `lastUpdated` — the only clock-dependent field; the computation is a pure
    function of its inputs. -/
theorem calculateRollup_idempotent (entries : List Entry) (s e : ℕ)
    (t₁ t₂ : String) :
    rollupData (calculateRollup entries s e t₁)
      = rollupData (calculateRollup entries s e t₂) := rfl

/-- C8: with an absent previous rollup (`null`/`undefined`), or one whose
    `totalHours` is zero or undefined, `calculateComparison` returns all-zero
    neutral deltas and raises no error (it is total). -/
theorem calculateComparison_neutral (current : CmpRollup)
    (previous : Option CmpRollup)
    (h : previous = none ∨ ∃ p, previous = some p ∧
      (p.totalHours = none ∨ p.totalHours = some 0)) :
    calculateComparison current previous
      = ⟨some 0, some 0, some 0, some 0, some 0, some 0⟩ := by
  rcases h with h | ⟨p, hp, hth⟩
  · rw [h]
    rfl
  · rw [hp]
    have hf : numFalsy p.totalHours = true := by
      rcases hth with h1 | h1 <;> simp [h1, numFalsy]
    simp [calculateComparison, hf]

/-- Witness for C8: comparing a rollup with `totalHours = 10` against `null`
    yields all-zero deltas. -/
theorem calculateComparison_neutral_witness :
    ((none : Option CmpRollup) = none ∨ ∃ p, (none : Option CmpRollup) = some p ∧
      (p.totalHours = none ∨ p.totalHours = some 0)) ∧
    calculateComparison ⟨some 10, some 0, some 0, some 0⟩ none
      = ⟨some 0, some 0, some 0, some 0, some 0, some 0⟩ :=
  ⟨Or.inl rfl, calculateComparison_neutral ⟨some 10, some 0, some 0, some 0⟩ none (Or.inl rfl)⟩

/-! ## Claim C7: coercion of malformed numeric fields -/

/-- Replace an entry's `hours` field by the number `0` exactly when
    `parseFloat` cannot parse it (the claim's "malformed field replaced
    by 0"); `date` and `hourlyRate` are untouched. -/
def coerceBadHours (e : Entry) : Entry :=
  match jvParseFloat e.hours with
  | none => { e with hours := JVal.num 0 }
  | some _ => e

/-- The numeric output fields of a rollup: everything except the period-id
    strings, the echoed entry list and the clock value. -/
def rollupNumFields (r : Rollup) :
    ℚ × ℚ × ℚ × Option ℚ × Option ℚ × Option ℚ × ℕ × ℕ × ℚ × ℚ :=
  (r.totalHours, r.regularHours, r.overtimeHours, r.totalEarnings,
   r.regularEarnings, r.overtimeEarnings, r.daysWorked, r.totalDays,
   r.averageHoursPerDay, r.averageHoursPerDayIncludingNonWork)

theorem coerce_date (e : Entry) : (coerceBadHours e).date = e.date := by
  unfold coerceBadHours
  split <;> rfl

theorem coerce_rate (e : Entry) : (coerceBadHours e).hourlyRate = e.hourlyRate := by
  unfold coerceBadHours
  split <;> rfl

theorem coerce_pf (e : Entry) :
    parseFloatOr0 (coerceBadHours e).hours = parseFloatOr0 e.hours := by
  unfold coerceBadHours
  split
  next h =>
    show parseFloatOr0 (JVal.num 0) = parseFloatOr0 e.hours
    unfold parseFloatOr0
    rw [h]
    rfl
  next => rfl

/-- A string `parseFloat` cannot parse is `ToNumber`-coerced to `0` (if
    whitespace-only) or to `NaN`. -/
theorem jsToNumber_of_parseFloat_none (s : String) (h : jsParseFloat s = none) :
    jsToNumber s = some 0 ∨ jsToNumber s = none := by
  have h' : jsParseFloatR s = none := by
    cases hfr : jsParseFloatR s with
    | none => rfl
    | some p =>
      unfold jsParseFloat at h
      rw [hfr] at h
      simp at h
  unfold jsToNumber
  rw [h']
  split_ifs with hws
  · exact Or.inl rfl
  · exact Or.inr rfl

/-- An unparsable `hours` value never counts as a positive-hours day. -/
theorem hoursPositive_of_parseFloat_none (v : JVal) (h : jvParseFloat v = none) :
    hoursPositive v = false := by
  cases v with
  | num q => simp [jvParseFloat] at h
  | nan => rfl
  | undef => rfl
  | str s =>
    have h2 : jsParseFloat s = none := h
    by_cases hs : s = ""
    · subst hs
      rfl
    · rcases jsToNumber_of_parseFloat_none s h2 with h0 | h0 <;>
        simp [hoursPositive, truthy, hs, jvToNumber, h0]

theorem coerce_hp (e : Entry) :
    hoursPositive (coerceBadHours e).hours = hoursPositive e.hours := by
  unfold coerceBadHours
  split
  next h =>
    show hoursPositive (JVal.num 0) = hoursPositive e.hours
    rw [hoursPositive_of_parseFloat_none e.hours h]
    rfl
  next => rfl

theorem foldl_pf_map_coerce (l : List Entry) :
    (l.map coerceBadHours).foldl (fun s e => s + parseFloatOr0 e.hours) 0
      = l.foldl (fun s e => s + parseFloatOr0 e.hours) 0 := by
  simp only [List.foldl_map, coerce_pf]

/-- The overtime calculator is blind to the hours coercion: it already
    applies `parseFloat(e.hours) || 0` itself, and the rate lookup ignores
    `hours`. -/
theorem cweo_map_coerce (l : List Entry) :
    calculateWeeklyEarningsWithOvertime (l.map coerceBadHours)
      = calculateWeeklyEarningsWithOvertime l := by
  have hfind : (match (l.map coerceBadHours).find? (fun e => truthy e.hourlyRate) with
      | some e => e.hourlyRate
      | none => JVal.num 0)
      = (match l.find? (fun e => truthy e.hourlyRate) with
      | some e => e.hourlyRate
      | none => JVal.num 0) := by
    rw [List.find?_map]
    have hp : ((fun e => truthy e.hourlyRate) ∘ coerceBadHours)
        = (fun e => truthy e.hourlyRate) := by
      funext e
      simp only [Function.comp_apply, coerce_rate]
    rw [hp]
    cases hf : l.find? (fun e => truthy e.hourlyRate) with
    | none => rfl
    | some e0 =>
      show (coerceBadHours e0).hourlyRate = e0.hourlyRate
      exact coerce_rate e0
  simp only [calculateWeeklyEarningsWithOvertime]
  rw [foldl_pf_map_coerce, hfind]

theorem groupInsert_map_coerce (k : String) (e : Entry) :
    ∀ m, groupInsert (m.map (fun kv => (kv.1, kv.2.map coerceBadHours))) k
        (coerceBadHours e)
      = (groupInsert m k e).map (fun kv => (kv.1, kv.2.map coerceBadHours)) := by
  intro m
  induction m with
  | nil => rfl
  | cons kv rest ih =>
    obtain ⟨k', l⟩ := kv
    by_cases h : k' = k <;> simp [groupInsert, h, ih]

theorem groupByWeek_map_coerce (l : List Entry) :
    groupByWeek (l.map coerceBadHours)
      = (groupByWeek l).map (fun kv => (kv.1, kv.2.map coerceBadHours)) := by
  suffices h : ∀ (l : List Entry) (m : List (String × List Entry)),
      (l.map coerceBadHours).foldl (fun m e => groupInsert m (getWeekId e.date) e)
        (m.map (fun kv => (kv.1, kv.2.map coerceBadHours)))
      = (l.foldl (fun m e => groupInsert m (getWeekId e.date) e) m).map
          (fun kv => (kv.1, kv.2.map coerceBadHours)) by
    have hh := h l []
    simpa [groupByWeek] using hh
  intro l
  induction l with
  | nil => intro m; rfl
  | cons e rest ih =>
    intro m
    simp only [List.map_cons, List.foldl_cons]
    rw [coerce_date, groupInsert_map_coerce, ih]

/-- C7, amended: both aggregation functions treat an entry whose `hours`
    field fails to parse exactly as if it were `0`, every hour-valued output
    being a (finite) rational — but a truthy non-numeric `hourlyRate` is
    *not* coerced (see the counterexample: it turns the earnings fields into
    `NaN`). -/
theorem rollup_coerces_malformed (entries : List Entry) (ps pe : ℕ) (now : String) :
    calculateWeeklyEarningsWithOvertime (entries.map coerceBadHours)
      = calculateWeeklyEarningsWithOvertime entries ∧
    rollupNumFields (calculateRollup (entries.map coerceBadHours) ps pe now)
      = rollupNumFields (calculateRollup entries ps pe now) := by
  refine ⟨cweo_map_coerce entries, ?_⟩
  have hfilter : (entries.map coerceBadHours).filter
        (fun e => decide (ps ≤ e.date) && decide (e.date ≤ pe))
      = (entries.filter (fun e => decide (ps ≤ e.date) && decide (e.date ≤ pe))).map
          coerceBadHours := by
    have hpred : ((fun e => decide (ps ≤ e.date) && decide (e.date ≤ pe)) ∘ coerceBadHours)
        = (fun e => decide (ps ≤ e.date) && decide (e.date ≤ pe)) := by
      funext e
      simp only [Function.comp_apply, coerce_date]
    rw [List.filter_map, hpred]
  simp only [calculateRollup, rollupNumFields]
  rw [hfilter]
  set P := entries.filter (fun e => decide (ps ≤ e.date) && decide (e.date ≤ pe)) with hP
  have htot := foldl_pf_map_coerce P
  have hgroup := groupByWeek_map_coerce P
  have hdw : ((P.map coerceBadHours).filter (fun e => hoursPositive e.hours)).length
      = (P.filter (fun e => hoursPositive e.hours)).length := by
    have hpred : ((fun e => hoursPositive e.hours) ∘ coerceBadHours)
        = (fun e => hoursPositive e.hours) := by
      funext e
      simp only [Function.comp_apply, coerce_hp]
    rw [List.filter_map, hpred, List.length_map]
  have hacc : (groupByWeek (P.map coerceBadHours)).foldl
      (fun (acc : ℚ × ℚ × Option ℚ × Option ℚ × Option ℚ) kv =>
        let weekCalc := calculateWeeklyEarningsWithOvertime kv.2
        (acc.1 + weekCalc.regularHours,
         acc.2.1 + weekCalc.overtimeHours,
         wadd acc.2.2.1 weekCalc.regularEarnings,
         wadd acc.2.2.2.1 weekCalc.overtimeEarnings,
         wadd acc.2.2.2.2 weekCalc.totalEarnings))
      (0, 0, some 0, some 0, some 0)
      = (groupByWeek P).foldl
      (fun (acc : ℚ × ℚ × Option ℚ × Option ℚ × Option ℚ) kv =>
        let weekCalc := calculateWeeklyEarningsWithOvertime kv.2
        (acc.1 + weekCalc.regularHours,
         acc.2.1 + weekCalc.overtimeHours,
         wadd acc.2.2.1 weekCalc.regularEarnings,
         wadd acc.2.2.2.1 weekCalc.overtimeEarnings,
         wadd acc.2.2.2.2 weekCalc.totalEarnings))
      (0, 0, some 0, some 0, some 0) := by
    rw [hgroup, List.foldl_map]
    congr 1
    funext a kv
    simp only [cweo_map_coerce]
  rw [htot, hdw, hacc]

/-- Counterexample to C7 as stated: a truthy non-numeric `hourlyRate`
    (`"abc"`) is used raw, so the earnings outputs are `NaN` (`none`), not
    the values obtained by replacing the malformed rate with `0`. -/
theorem rollup_c7_counterexample :
    (calculateWeeklyEarningsWithOvertime
        [{ date := 739522, hours := JVal.num 8, hourlyRate := JVal.str "abc" }]).regularEarnings
      = none ∧
    (calculateWeeklyEarningsWithOvertime
        [{ date := 739522, hours := JVal.num 8, hourlyRate := JVal.num 0 }]).regularEarnings
      = some 0 ∧
    (calculateRollup
        [{ date := 739522, hours := JVal.num 8, hourlyRate := JVal.str "abc" }]
        739522 739522 "t").totalEarnings = none := by
  refine ⟨?_, ?_, ?_⟩ <;> with_unfolding_all decide

/-! ## Claim C10: month attribution of whole week groups -/

/-- Attach to a week group the `monthId` of its first entry (the claim's
    description of the `weekMap` values). -/
def attachMonth (kv : String × List Entry) : String × (List Entry × String) :=
  (kv.1, (kv.2, match kv.2.head? with
    | some e0 => getMonthId e0.date
    | none => ""))

theorem groupInsert_ne_nil (k : String) (e : Entry) :
    ∀ m, (∀ kv ∈ m, kv.2 ≠ ([] : List Entry)) →
      ∀ kv ∈ groupInsert m k e, kv.2 ≠ ([] : List Entry) := by
  intro m
  induction m with
  | nil =>
    intro _ kv hkv
    simp [groupInsert] at hkv
    subst hkv
    simp
  | cons kv0 rest ih =>
    obtain ⟨k', l⟩ := kv0
    intro hm kv hkv
    by_cases h : k' = k
    · rw [show groupInsert ((k', l) :: rest) k e = (k', l ++ [e]) :: rest by
        simp [groupInsert, h]] at hkv
      rw [List.mem_cons] at hkv
      rcases hkv with hkv | hkv
      · subst hkv; simp
      · exact hm kv (List.mem_cons_of_mem _ hkv)
    · rw [show groupInsert ((k', l) :: rest) k e = (k', l) :: groupInsert rest k e by
        simp [groupInsert, h]] at hkv
      rw [List.mem_cons] at hkv
      rcases hkv with hkv | hkv
      · subst hkv; exact hm (k', l) (by simp)
      · exact ih (fun kv' hkv' => hm kv' (List.mem_cons_of_mem _ hkv')) kv hkv

/-- One step of the `weekMap` loop, against one step of plain grouping: a new
    week key records the inserting entry's month; an existing (nonempty) key
    keeps the month of its first entry. -/
theorem weekMapInsert_attach (k : String) (e : Entry) :
    ∀ m, (∀ kv ∈ m, kv.2 ≠ ([] : List Entry)) →
      weekMapInsert (m.map attachMonth) k (getMonthId e.date) e
        = (groupInsert m k e).map attachMonth := by
  intro m
  induction m with
  | nil => intro _; rfl
  | cons kv0 rest ih =>
    obtain ⟨k', l⟩ := kv0
    intro hm
    have hl : l ≠ [] := hm (k', l) (by simp)
    by_cases h : k' = k
    · obtain ⟨a, as, rfl⟩ : ∃ a as, l = a :: as := by
        cases l with
        | nil => exact absurd rfl hl
        | cons a as => exact ⟨a, as, rfl⟩
      simp [weekMapInsert, groupInsert, attachMonth, h]
    · simp [weekMapInsert, groupInsert, attachMonth, h,
        ih (fun kv' hkv' => hm kv' (List.mem_cons_of_mem _ hkv'))]

/-- The `weekMap` of `aggregateByMonth` is exactly the by-week grouping with
    each group's first entry's month attached. -/
theorem buildWeekMap_eq (entries : List Entry) :
    buildWeekMap entries = (groupByWeek entries).map attachMonth := by
  suffices h : ∀ (l : List Entry) (m : List (String × List Entry)),
      (∀ kv ∈ m, kv.2 ≠ ([] : List Entry)) →
      l.foldl (fun m e => weekMapInsert m (getWeekId e.date) (getMonthId e.date) e)
        (m.map attachMonth)
      = (l.foldl (fun m e => groupInsert m (getWeekId e.date) e) m).map attachMonth by
    have hh := h entries [] (by simp)
    simpa [buildWeekMap, groupByWeek] using hh
  intro l
  induction l with
  | nil => intro m _; rfl
  | cons e rest ih =>
    intro m hm
    simp only [List.foldl_cons]
    rw [weekMapInsert_attach (getWeekId e.date) e m hm]
    exact ih (groupInsert m (getWeekId e.date) e) (groupInsert_ne_nil _ e m hm)

/-- C10: `aggregateByMonth` credits each week group wholly to the month of
    the group's first entry in input order (it coincides with the reference
    recomputation `aggregateByMonthClaim`); concretely, the
    2025-09-30/2025-10-01 week goes entirely to September in one input order
    and entirely to October after swapping the two entries. -/
theorem aggregateByMonth_first_entry_month :
    (∀ entries, aggregateByMonth entries = aggregateByMonthClaim entries) ∧
    aggregateByMonth
      [{ date := 739523, hours := JVal.num 8, hourlyRate := JVal.num 10 },
       { date := 739524, hours := JVal.num 8, hourlyRate := JVal.num 10 }]
      = [{ monthId := "2025-09", hours := 16, earnings := some 160, regularHours := 16,
           overtimeHours := 0, regularEarnings := some 160, overtimeEarnings := some 0 }] ∧
    aggregateByMonth
      [{ date := 739524, hours := JVal.num 8, hourlyRate := JVal.num 10 },
       { date := 739523, hours := JVal.num 8, hourlyRate := JVal.num 10 }]
      = [{ monthId := "2025-10", hours := 16, earnings := some 160, regularHours := 16,
           overtimeHours := 0, regularEarnings := some 160, overtimeEarnings := some 0 }] := by
  refine ⟨?_, ?_, ?_⟩
  · intro entries
    simp only [aggregateByMonth, aggregateByMonthClaim]
    rw [buildWeekMap_eq, List.foldl_map]
    rfl
  · with_unfolding_all decide
  · with_unfolding_all decide

end HoursTracker
